import Mathlib

/-!
Verification of the sqlparams SQL parameter-style conversion library.

This file shallowly embeds the data model and the conversion engine of the
repository (src/sqlparams/_styles.py, src/sqlparams/_converting.py,
src/sqlparams/__init__.py) and proves properties of the embedding.

Conventions of the embedding:

* Python strings are Lean `String`, processed as `List Char`.
* Python exceptions become `Except` errors: `KeyError` (an unresolved
  parameter reference), `IndexError`, `TypeError` (the spec's TypeMismatch),
  `ValueError` (the spec's LengthMismatch), `StopIteration` (the spec's
  EmptyInput, raised by `next(iter(many_params))` on an empty iterable) and
  `UnicodeEncodeError`.
* `re.sub(pattern, callback, sql)` is embedded in two stages: a tokenizer
  for the concrete scan pattern of the in-style (produced by
  `SQLParams.__create_in_regex` for the default construction options:
  no escape group, no out-percent group), followed by `runSub`, which folds
  the per-match callback over the match sequence, copying non-match text.
-/

namespace SqlParams

/-- Scalar (non-tuple) parameter values. The engine treats values opaquely
except for `isinstance(value, tuple)`, `len` and iteration, so scalars only
need enough structure to build concrete inputs; `null` is Python `None`
(used for the `[None] * size` row initialization). -/
inductive Scalar where
  | null : Scalar
  | int (i : Int) : Scalar
  | str (s : String) : Scalar
deriving DecidableEq, Repr

/-- Parameter values: a scalar, or a Python tuple. Tuple elements are
restricted to scalars in this embedding (no claim exercises nested
tuples). -/
inductive Value where
  | sc (a : Scalar) : Value
  | tup (elems : List Scalar) : Value
deriving DecidableEq, Repr

/-- Shorthand for an integer value. -/
def Value.int (i : Int) : Value := Value.sc (Scalar.int i)

/-- Shorthand for a string value. -/
def Value.str (s : String) : Value := Value.sc (Scalar.str s)

/-- Shorthand for Python `None`. -/
def Value.null : Value := Value.sc Scalar.null

/-- Whether the value is a Python tuple (`isinstance(value, tuple)`). -/
def Value.isTup : Value → Bool
  | .tup _ => true
  | _ => false

/-- A named-style parameter set: a Python mapping from name to value. -/
def Params : Type := List (String × Value)

/-- Errors of a conversion call, named after the Python exception raised by
the source. The spec's taxonomy maps onto them as follows: TypeMismatch is
`typeError`, LengthMismatch is `valueError`, UnresolvedReference is
`keyError`, EmptyInput is `stopIteration`. -/
inductive ConvError where
  | keyError (nm : String) : ConvError
  | indexError : ConvError
  | typeError : ConvError
  | valueError : ConvError
  | stopIteration : ConvError
  | encodeError : ConvError
deriving DecidableEq, Repr

/-- Association-list find with decidable key equality; embeds Python dict
lookup `d.get(k)` (keys are unique by construction in every use). -/
def alistFind {κ β : Type} [DecidableEq κ] (k : κ) : List (κ × β) → Option β
  | [] => none
  | (k', v) :: rest => if k' = k then some v else alistFind k rest

/-- Python `in_params[in_name]` on a mapping: `KeyError` when absent. -/
def getParam (inParams : Params) (nm : String) : Except ConvError Value :=
  match alistFind nm inParams with
  | some v => Except.ok v
  | none => Except.error (ConvError.keyError nm)

/-- Python sequence subscription `in_params[i]` with an `int` index:
negative indices address from the end, out-of-range raises `IndexError`. -/
def pyIndex (xs : List Value) (i : Int) : Except ConvError Value :=
  let n : Int := xs.length
  let j : Int := if i < 0 then i + n else i
  if 0 ≤ j ∧ j < n then
    match xs[j.toNat]? with
    | some v => Except.ok v
    | none => Except.error ConvError.indexError
  else
    Except.error ConvError.indexError

/-- Replaces every occurrence of the replacement field `\x7bparam\x7d` in
the format string by the argument. -/
def pyFormatAux (arg : List Char) : List Char → List Char
  | [] => []
  | '\x7b' :: 'p' :: 'a' :: 'r' :: 'a' :: 'm' :: '\x7d' :: rest =>
    arg ++ pyFormatAux arg rest
  | c :: rest => c :: pyFormatAux arg rest

/-- Python `"...".format(param=arg)` restricted to the out-format strings of
the style registry, whose only replacement field is `\x7bparam\x7d`. -/
def pyFormat (fmt : String) (arg : String) : String :=
  String.mk (pyFormatAux arg.data fmt.data)

/-- Python `",".join(parts)`. -/
def joinComma (parts : List String) : String :=
  String.intercalate "," parts

/-- Maps a fallible function over a list, stopping at the first error; the
shape of every per-parameter-set loop of the library (`for i, in_params in
enumerate(many_in_params): ...`) and of byte-wise encoding. -/
def exceptMapM {α β ε : Type} (f : α → Except ε β) : List α → Except ε (List β)
  | [] => Except.ok []
  | x :: xs => do
    let y ← f x
    let ys ← exceptMapM f xs
    Except.ok (y :: ys)

/-- Python `int(s)` on a string of decimal digits. -/
def parseDigits (s : String) : Nat :=
  s.data.foldl (fun a c => a * 10 + (c.toNat - ('0').toNat)) 0

/-! ## The marker scanner

`SQLParams.__create_in_regex` compiles, for the default options
(`escape_char=None`, an out-style whose escape character is not `%`), just
the in-style's `param_regex`.  The two in-styles exercised by the claims
are:

* `named`:   `(?<!:):(?P<param>[A-Za-z_]\w*)`   (src/sqlparams/_styles.py)
* `numeric`: `(?<!:):(?P<param>\d+)`

Both are of the shape: a colon not preceded by a colon (negative
lookbehind), followed by a maximal name (one start-class character followed
by continuation-class characters).  `tokenizeWith` is a direct scanner for
this pattern family, reproducing how `re.sub` walks the subject string:
find the leftmost match at or after the current position, emit it, continue
after it; all other characters are copied verbatim.  The lookbehind state is
tracked as "the previous character of the subject was a colon" (after a
parameter match the previous character is the final name character, which is
never a colon). -/

/-- One element of the scan of a query: a non-match character copied
verbatim, or a parameter-marker match carrying its `param` group. -/
inductive Tok where
  | lit (c : Char) : Tok
  | param (nm : String) : Tok
deriving DecidableEq, Repr

/-- The `param` group of a match, if the element is a match. -/
def Tok.paramName : Tok → Option String
  | .lit _ => none
  | .param nm => some nm

/-- Scanner for the pattern `(?<!:):(?P<param>START CONT*)`.  The first
argument is `none` while outside a match and `some acc` while consuming the
maximal run of continuation characters of a name whose characters so far are
`acc` (reversed); `prevColon` says whether the previous subject character
was a colon (the negative lookbehind).  When a name ends at a character `c`,
the previous subject character is the final name character — never a colon —
so the lookbehind passes and `c` is examined as a possible new match start
directly. -/
def tokenizeWith (isStart isCont : Char → Bool) :
    Option (List Char) → Bool → List Char → List Tok
  | none, _, [] => []
  | some acc, _, [] => [Tok.param (String.mk acc.reverse)]
  | none, _, [c] => [Tok.lit c]
  | none, prevColon, c :: d :: rest2 =>
    if c = ':' ∧ ¬prevColon then
      if isStart d then
        tokenizeWith isStart isCont (some [d]) false rest2
      else
        Tok.lit ':' :: tokenizeWith isStart isCont none true (d :: rest2)
    else
      Tok.lit c :: tokenizeWith isStart isCont none (c = ':') (d :: rest2)
  | some acc, _, [c] =>
    if isCont c then
      [Tok.param (String.mk (c :: acc).reverse)]
    else
      [Tok.param (String.mk acc.reverse), Tok.lit c]
  | some acc, _, c :: d :: rest2 =>
    if isCont c then
      tokenizeWith isStart isCont (some (c :: acc)) false (d :: rest2)
    else
      Tok.param (String.mk acc.reverse) ::
        (if c = ':' then
          if isStart d then
            tokenizeWith isStart isCont (some [d]) false rest2
          else
            Tok.lit ':' :: tokenizeWith isStart isCont none true (d :: rest2)
        else
          Tok.lit c :: tokenizeWith isStart isCont none (c = ':') (d :: rest2))

/-- First character class of a Python identifier: `[A-Za-z_]`. -/
def isIdentStart (c : Char) : Bool :=
  (('A' ≤ c ∧ c ≤ 'Z') ∨ ('a' ≤ c ∧ c ≤ 'z') ∨ c = '_' : Bool)

/-- Continuation class `\w` (restricted to ASCII, the alphabet of every
query in this development). -/
def isWordChar (c : Char) : Bool :=
  (isIdentStart c ∨ ('0' ≤ c ∧ c ≤ '9') : Bool)

/-- Digit class `\d` (ASCII). -/
def isDigitChar (c : Char) : Bool :=
  ('0' ≤ c ∧ c ≤ '9' : Bool)

/-- Scan with the `named` style's `param_regex`:
`(?<!:):(?P<param>[A-Za-z_]\w*)`. -/
def tokenizeNamed (s : List Char) : List Tok :=
  tokenizeWith isIdentStart isWordChar none false s

/-- Scan with the `numeric` style's `param_regex`: `(?<!:):(?P<param>\d+)`. -/
def tokenizeNumeric (s : List Char) : List Tok :=
  tokenizeWith isDigitChar isDigitChar none false s

/-- Embeds `self._in_regex.sub(callback, sql)`: folds the per-match callback
over the scan, threading its mutable state (the closure state of the
`__regex_replace` callbacks) and concatenating replacement and copied
text. -/
def runSub {σ : Type} (replace : σ → String → Except ConvError (String × σ)) :
    σ → List Tok → Except ConvError (String × σ)
  | st, [] => Except.ok ("", st)
  | st, Tok.lit c :: rest => do
    let r ← runSub replace st rest
    Except.ok (String.singleton c ++ r.1, r.2)
  | st, Tok.param nm :: rest => do
    let pr ← replace st nm
    let r ← runSub replace pr.2 rest
    Except.ok (pr.1 ++ r.1, r.2)

/-! ## NamedToOrdinalConverter

Embeds `_converting.NamedToOrdinalConverter` specialized to an in-style with
`param_quotes = False` (such as `named`), so the Oracle case-folding branch
of `__regex_replace` is not taken.  The `out_percent` group does not occur
for the out-styles used here (their escape character is not `%`), and
escaping is disabled (the default), so a match is always a parameter
match. -/

/-- One entry of `param_conversions` in `NamedToOrdinalConverter`:
`(False, in_name, None)` for a simple conversion, or
`(True, in_name, len(value))` for a tuple conversion. -/
inductive OrdConv where
  | simple (inName : String) : OrdConv
  | expand (inName : String) (outCount : Nat) : OrdConv
deriving DecidableEq, Repr

/-- The in-name recorded in an `OrdConv` entry. -/
def OrdConv.inName : OrdConv → String
  | .simple nm => nm
  | .expand nm _ => nm

namespace NamedToOrdinalConverter

/-- The parameter-match arm of `NamedToOrdinalConverter.__regex_replace`.
Looks up the named parameter; with expansion enabled a non-empty tuple is
flattened to `(fmt,fmt,...)` recording a tuple conversion, an empty tuple
becomes the literal `(NULL)` recording nothing, and anything else emits the
out-format recording a simple conversion. -/
def regexReplace (expandTuples : Bool) (outFormat : String) (inParams : Params)
    (convs : List OrdConv) (nm : String) :
    Except ConvError (String × List OrdConv) := do
  let value ← getParam inParams nm
  match value, expandTuples with
  | Value.tup vs, true =>
    if vs.isEmpty then
      Except.ok ("(NULL)", convs)
    else
      Except.ok ("(" ++ joinComma (List.replicate vs.length outFormat) ++ ")",
        convs ++ [OrdConv.expand nm vs.length])
  | _, _ =>
    Except.ok (outFormat, convs ++ [OrdConv.simple nm])

/-- One step of `NamedToOrdinalConverter.__convert_params`: append the
looked-up value (or, for a tuple conversion, every element of the looked-up
value).  (In Python, iterating a non-iterable value raises `TypeError`; the
single-shot plan only records tuple conversions for tuple values, so that
branch is unreachable there.) -/
def paramsStep (inParams : Params) (out : List Value) :
    OrdConv → Except ConvError (List Value)
  | OrdConv.simple nm => do
    let v ← getParam inParams nm
    Except.ok (out ++ [v])
  | OrdConv.expand nm _ => do
    let v ← getParam inParams nm
    match v with
    | Value.tup vs => Except.ok (out ++ vs.map Value.sc)
    | _ => Except.error ConvError.typeError

/-- Embeds `NamedToOrdinalConverter.__convert_params`: replays the plan
against the parameter set in plan order. -/
def convertParams (inParams : Params) (convs : List OrdConv) :
    Except ConvError (List Value) :=
  List.foldlM (paramsStep inParams) [] convs

/-- Embeds `NamedToOrdinalConverter.convert` (query scan via `re.sub`, then
parameter replay). -/
def convert (expandTuples : Bool) (outFormat : String) (sql : String)
    (params : Params) : Except ConvError (String × List Value) := do
  let scanned ← runSub (regexReplace expandTuples outFormat params) []
    (tokenizeNamed sql.data)
  let outParams ← convertParams params scanned.2
  Except.ok (scanned.1, outParams)

/-- One step of a `NamedToOrdinalConverter.__convert_many_params` row: like
`paramsStep` but validating each tuple conversion (`TypeError` when the
value is not a tuple, `ValueError` when its length differs from the
recorded out-count). -/
def manyRowStep (inParams : Params) (out : List Value) :
    OrdConv → Except ConvError (List Value)
  | OrdConv.simple nm => do
    let v ← getParam inParams nm
    Except.ok (out ++ [v])
  | OrdConv.expand nm outCount => do
    let v ← getParam inParams nm
    match v with
    | Value.tup vs =>
      if vs.length ≠ outCount then
        Except.error ConvError.valueError
      else
        Except.ok (out ++ vs.map Value.sc)
    | _ => Except.error ConvError.typeError

/-- One row of `NamedToOrdinalConverter.__convert_many_params`: replays the
plan against one parameter set of the batch. -/
def convertManyRow (convs : List OrdConv) (inParams : Params) :
    Except ConvError (List Value) :=
  List.foldlM (manyRowStep inParams) [] convs

/-- Embeds `NamedToOrdinalConverter.__convert_many_params`. -/
def convertManyParams (manyInParams : List Params) (convs : List OrdConv) :
    Except ConvError (List (List Value)) :=
  exceptMapM (convertManyRow convs) manyInParams

/-- Embeds `NamedToOrdinalConverter.convert_many`: `next(iter(many_params))`
raises `StopIteration` on an empty iterable; the query is scanned once with
the first parameter set, and the resulting plan is replayed against every
set. -/
def convertMany (expandTuples : Bool) (outFormat : String) (sql : String)
    (manyParams : List Params) : Except ConvError (String × List (List Value)) :=
  match manyParams with
  | [] => Except.error ConvError.stopIteration
  | firstParams :: iterParams => do
    let scanned ← runSub (regexReplace expandTuples outFormat firstParams) []
      (tokenizeNamed sql.data)
    let outs ← convertManyParams (firstParams :: iterParams) scanned.2
    Except.ok (scanned.1, outs)

end NamedToOrdinalConverter

/-! ## The numeric-out conversion core

`NamedToNumericConverter` and `NumericToNumericConverter` share their
conversion logic verbatim up to the type of the input-reference identity
(the parameter name, respectively the normalized in-index) and how a value
is fetched for an identity (mapping lookup, respectively sequence
subscription).  The core below is parameterized by exactly those two points;
each converter instantiates it. -/

/-- A key of the `out_lookup` cache: the whole in-reference for a simple
conversion (`out_lookup[in_name]`), or one element of an expanded
in-reference (`out_lookup[(in_name, i)]`). -/
inductive NumOutKey (κ : Type) where
  | whole (k : κ) : NumOutKey κ
  | elem (k : κ) (i : Nat) : NumOutKey κ
deriving DecidableEq, Repr

/-- One entry of `param_conversions` in a numeric-out converter:
`(False, in_ref, out_index)` or `(True, in_ref, out_indices)`. -/
inductive NumOutConv (κ : Type) where
  | simple (k : κ) (outIdx : Nat) : NumOutConv κ
  | expand (k : κ) (outIdxs : List Nat) : NumOutConv κ
deriving DecidableEq, Repr

/-- The in-reference identity recorded in an entry. -/
def NumOutConv.key {κ : Type} : NumOutConv κ → κ
  | .simple k _ => k
  | .expand k _ => k

/-- The mutable closure state of a numeric-out `__regex_replace` callback:
the `param_conversions` output list, the `out_counter` value, and the
`out_lookup` cache. -/
structure NumOutState (κ : Type) where
  convs : List (NumOutConv κ)
  counter : Nat
  cache : List (NumOutKey κ × Nat × String)
deriving Repr

/-- The initial scan state (`param_conversions = []`,
`out_counter = itertools.count()`, `out_lookup = {}`). -/
def NumOutState.init (κ : Type) : NumOutState κ := ⟨[], 0, []⟩

/-- The replacement text for a fresh out-index:
`out_format.format(param=out_index + out_start)`. -/
def numOutRepl (outFormat : String) (outStart : Nat) (outIdx : Nat) : String :=
  pyFormat outFormat (toString (outIdx + outStart))

/-- Result of the `for i, sub_value in enumerate(value)` loop of a
numeric-out tuple conversion. -/
structure ExpandLoopResult (κ : Type) where
  outIdxs : List Nat
  outRepls : List String
  cache : List (NumOutKey κ × Nat × String)
  counter : Nat
  isNew : Bool

/-- The `enumerate(value)` loop of a numeric-out tuple conversion, iterated
over the element positions: a cached element reuses its out-index and
replacement (and clears `is_new`); a fresh element draws the next counter
value and caches it. -/
def numOutExpandLoop {κ : Type} [DecidableEq κ] (outFormat : String)
    (outStart : Nat) (k : κ) (cache : List (NumOutKey κ × Nat × String))
    (counter : Nat) (isNew : Bool) : List Nat → ExpandLoopResult κ
  | [] => ⟨[], [], cache, counter, isNew⟩
  | i :: rest =>
    match alistFind (NumOutKey.elem k i) cache with
    | some pr =>
      let r := numOutExpandLoop outFormat outStart k cache counter false rest
      ⟨pr.1 :: r.outIdxs, pr.2 :: r.outRepls, r.cache, r.counter, r.isNew⟩
    | none =>
      let outIdx := counter
      let repl := numOutRepl outFormat outStart outIdx
      let r := numOutExpandLoop outFormat outStart k
        (cache ++ [(NumOutKey.elem k i, outIdx, repl)]) (outIdx + 1) isNew rest
      ⟨outIdx :: r.outIdxs, repl :: r.outRepls, r.cache, r.counter, r.isNew⟩

/-- The simple-conversion arm of a numeric-out `__regex_replace`: a cached
in-reference reuses its replacement and records nothing; a fresh one draws
the next counter value, caches it, and records a simple conversion. -/
def numOutSimple {κ : Type} [DecidableEq κ] (outFormat : String)
    (outStart : Nat) (k : κ) (st : NumOutState κ) : String × NumOutState κ :=
  match alistFind (NumOutKey.whole k) st.cache with
  | some pr => (pr.2, st)
  | none =>
    let outIdx := st.counter
    let repl := numOutRepl outFormat outStart outIdx
    (repl,
      ⟨st.convs ++ [NumOutConv.simple k outIdx], outIdx + 1,
        st.cache ++ [(NumOutKey.whole k, outIdx, repl)]⟩)

/-- The parameter-match arm of a numeric-out `__regex_replace`: fetch the
value of the in-reference; with expansion enabled a non-empty tuple runs the
expand loop (recording a tuple conversion only when every element was
fresh), an empty tuple becomes the literal `(NULL)` recording nothing, and
anything else takes the simple arm. -/
def numOutRegexReplace {κ : Type} [DecidableEq κ] (expandTuples : Bool)
    (outFormat : String) (outStart : Nat)
    (fetch : κ → Except ConvError Value) (st : NumOutState κ) (k : κ) :
    Except ConvError (String × NumOutState κ) := do
  let value ← fetch k
  match value, expandTuples with
  | Value.tup vs, true =>
    if vs.isEmpty then
      Except.ok ("(NULL)", st)
    else
      let r := numOutExpandLoop outFormat outStart k st.cache st.counter true
        (List.range vs.length)
      let convs :=
        if r.isNew then st.convs ++ [NumOutConv.expand k r.outIdxs] else st.convs
      Except.ok ("(" ++ joinComma r.outRepls ++ ")", ⟨convs, r.counter, r.cache⟩)
  | _, _ =>
    Except.ok (numOutSimple outFormat outStart k st)

/-- The `out_params` row size of a numeric-out plan:
`(last_conv[2][-1] if last_conv[0] else last_conv[2]) + 1`, where
`param_conversions[-1]` raises `IndexError` on an empty plan (the code has
no guard for a query that records no conversions). -/
def numOutPlanSize {κ : Type} (convs : List (NumOutConv κ)) :
    Except ConvError Nat :=
  match convs.getLast? with
  | none => Except.error ConvError.indexError
  | some (NumOutConv.simple _ outIdx) => Except.ok (outIdx + 1)
  | some (NumOutConv.expand _ outIdxs) =>
    match outIdxs.getLast? with
    | some j => Except.ok (j + 1)
    | none => Except.error ConvError.indexError

/-- Python `for sub_index, sub_value in zip(out_indices, values):
out_params[sub_index] = sub_value` — `zip` truncates to the shorter list,
and every out-index is in range in every reachable use, so `List.set`'s
out-of-range no-op is never exercised. -/
def setZip (out : List Value) : List Nat → List Scalar → List Value
  | i :: is, v :: vs => setZip (out.set i (Value.sc v)) is vs
  | _, _ => out

/-- One step of a numeric-out `__convert_params` replay: write the fetched
value at its out-index (a tuple conversion writes each element; as in the
single-shot plan the value is always a tuple, with `TypeError` modelling
Python's failure to iterate otherwise). -/
def numOutParamsStep {κ : Type} (fetch : κ → Except ConvError Value)
    (out : List Value) : NumOutConv κ → Except ConvError (List Value)
  | NumOutConv.simple k outIdx => do
    let v ← fetch k
    Except.ok (out.set outIdx v)
  | NumOutConv.expand k outIdxs => do
    let v ← fetch k
    match v with
    | Value.tup vs => Except.ok (setZip out outIdxs vs)
    | _ => Except.error ConvError.typeError

/-- Embeds a numeric-out `__convert_params`: allocate `[None] * size`, then
replay the plan, writing values at their out-indices. -/
def numOutConvertParams {κ : Type} (fetch : κ → Except ConvError Value)
    (convs : List (NumOutConv κ)) : Except ConvError (List Value) := do
  let size ← numOutPlanSize convs
  List.foldlM (numOutParamsStep fetch) (List.replicate size Value.null) convs

/-- One step of a numeric-out `__convert_many_params` row: like
`numOutParamsStep` but validating each tuple conversion (`TypeError` when
the value is not a tuple, `ValueError` when its length differs from the
recorded out-indices count). -/
def numOutManyRowStep {κ : Type} (fetch : κ → Except ConvError Value)
    (out : List Value) : NumOutConv κ → Except ConvError (List Value)
  | NumOutConv.simple k outIdx => do
    let v ← fetch k
    Except.ok (out.set outIdx v)
  | NumOutConv.expand k outIdxs => do
    let v ← fetch k
    match v with
    | Value.tup vs =>
      if vs.length ≠ outIdxs.length then
        Except.error ConvError.valueError
      else
        Except.ok (setZip out outIdxs vs)
    | _ => Except.error ConvError.typeError

/-- One row of a numeric-out `__convert_many_params`. -/
def numOutConvertManyRow {κ : Type} (fetch : κ → Except ConvError Value)
    (convs : List (NumOutConv κ)) (size : Nat) : Except ConvError (List Value) :=
  List.foldlM (numOutManyRowStep fetch) (List.replicate size Value.null) convs

/-- Embeds a numeric-out `__convert_many_params` over the whole batch: the
row size is computed once from the plan, then each parameter set is
replayed. -/
def numOutConvertManyParams {κ ρ : Type}
    (mkFetch : ρ → κ → Except ConvError Value) (manyInParams : List ρ)
    (convs : List (NumOutConv κ)) : Except ConvError (List (List Value)) := do
  let size ← numOutPlanSize convs
  exceptMapM (fun p => numOutConvertManyRow (mkFetch p) convs size) manyInParams

namespace NamedToNumericConverter

/-- Embeds `NamedToNumericConverter.__regex_replace` (specialized to an
in-style with `param_quotes = False`): the numeric-out core keyed by the
parameter name, fetching by mapping lookup. -/
def regexReplace (expandTuples : Bool) (outFormat : String) (outStart : Nat)
    (inParams : Params) (st : NumOutState String) (nm : String) :
    Except ConvError (String × NumOutState String) :=
  numOutRegexReplace expandTuples outFormat outStart (getParam inParams) st nm

/-- Embeds `NamedToNumericConverter.convert`. -/
def convert (expandTuples : Bool) (outFormat : String) (outStart : Nat)
    (sql : String) (params : Params) : Except ConvError (String × List Value) := do
  let scanned ← runSub (regexReplace expandTuples outFormat outStart params)
    (NumOutState.init String) (tokenizeNamed sql.data)
  let outParams ← numOutConvertParams (getParam params) scanned.2.convs
  Except.ok (scanned.1, outParams)

/-- Embeds `NamedToNumericConverter.convert_many`. -/
def convertMany (expandTuples : Bool) (outFormat : String) (outStart : Nat)
    (sql : String) (manyParams : List Params) :
    Except ConvError (String × List (List Value)) :=
  match manyParams with
  | [] => Except.error ConvError.stopIteration
  | firstParams :: iterParams => do
    let scanned ← runSub (regexReplace expandTuples outFormat outStart firstParams)
      (NumOutState.init String) (tokenizeNamed sql.data)
    let outs ← numOutConvertManyParams getParam (firstParams :: iterParams)
      scanned.2.convs
    Except.ok (scanned.1, outs)

end NamedToNumericConverter

namespace NumericToNumericConverter

/-- The normalized in-reference identity of a numeric marker:
`in_index = int(param) - self._in_start`. -/
def inIndexOf (inStart : Nat) (nm : String) : Int :=
  (parseDigits nm : Int) - (inStart : Int)

/-- Embeds `NumericToNumericConverter.__regex_replace`: the numeric-out core
keyed by the normalized in-index, fetching by sequence subscription. -/
def regexReplace (expandTuples : Bool) (outFormat : String)
    (inStart outStart : Nat) (inParams : List Value) (st : NumOutState Int)
    (nm : String) : Except ConvError (String × NumOutState Int) :=
  numOutRegexReplace expandTuples outFormat outStart (pyIndex inParams) st
    (inIndexOf inStart nm)

/-- Embeds `NumericToNumericConverter.convert` for a parameter sequence (the
`is_sequence(params)` branch; a mapping is first normalized by
`_mapping_as_sequence`, which no claim exercises). -/
def convert (expandTuples : Bool) (outFormat : String) (inStart outStart : Nat)
    (sql : String) (params : List Value) :
    Except ConvError (String × List Value) := do
  let scanned ← runSub (regexReplace expandTuples outFormat inStart outStart params)
    (NumOutState.init Int) (tokenizeNumeric sql.data)
  let outParams ← numOutConvertParams (pyIndex params) scanned.2.convs
  Except.ok (scanned.1, outParams)

end NumericToNumericConverter

/-! ## The style registry (src/sqlparams/_styles.py) -/

/-- The class of a style: `NamedStyle`, `NumericStyle` or `OrdinalStyle`. -/
inductive StyleKind where
  | named : StyleKind
  | numeric : StyleKind
  | ordinal : StyleKind
deriving DecidableEq, Repr

/-- A parameter style descriptor (`_styles.Style` with its subclass as
`kind`).  `start` belongs to `NumericStyle` only (`0` elsewhere).  The field
`param_quotes` is modelled from the spec: the `Style` class in
src/sqlparams/_styles.py does not declare it, but src/sqlparams/_converting.py
reads `style.param_quotes` on every style, so the consistent version of the
class carries it; per the spec it marks the dialect styles whose unquoted
identifiers are case-folded, and it is `False` for every style defined in
src/_styles.py. -/
structure Style where
  name : String
  kind : StyleKind
  escape_char : String
  escape_regex : String
  param_regex : String
  out_format : String
  start : Nat := 0
  param_quotes : Bool := false
deriving DecidableEq, Repr

/-- Modelled from the spec: the `named_oracle` registry entry is missing
from src/sqlparams/_styles.py, although src/sqlparams/_converting.py (the
`param_quotes` branches and `_quote_oracle_param`/`_unquote_oracle_param`)
and the tests (`test_2_named_to_ordinal.py`) use it.  Per the spec it is a
named dialect style requiring case-insensitive matching folded to uppercase
unless the identifier is quoted: its marker is a colon-prefixed identifier,
optionally enclosed in double quotes, and `param_quotes` is set. -/
def namedOracleStyle : Style :=
  { name := "named_oracle"
    kind := StyleKind.named
    escape_char := ":"
    escape_regex := "(?P<escape>{char}:)"
    param_regex := "(?<!:):(?P<param>(?P<quote>\")?[A-Za-z_]\\w*(?(quote)\"))"
    out_format := ":{param}"
    param_quotes := true }

/-- Modelled from the spec: the `named_sqlserver` registry entry (the
`@name` dialect variant named by the spec) is likewise missing from
src/sqlparams/_styles.py. -/
def namedSqlServerStyle : Style :=
  { name := "named_sqlserver"
    kind := StyleKind.named
    escape_char := "@"
    escape_regex := "(?P<escape>{char}@)"
    param_regex := "(?<!@)@(?P<param>[A-Za-z_]\\w*)"
    out_format := "@{param}" }

/-- The global style registry `_styles.STYLES`, in the registration order of
src/sqlparams/_styles.py, extended with the two dialect entries above
(which the spec and the rest of the repository require but the snapshot of
_styles.py lacks). -/
def STYLES : List (String × Style) :=
  [ ("format",
      { name := "format"
        kind := StyleKind.ordinal
        escape_char := "%"
        escape_regex := "(?P<escape>{char}%)"
        param_regex := "(?<!%)%s"
        out_format := "%s" }),
    ("named",
      { name := "named"
        kind := StyleKind.named
        escape_char := ":"
        escape_regex := "(?P<escape>{char}:)"
        param_regex := "(?<!:):(?P<param>[A-Za-z_]\\w*)"
        out_format := ":{param}" }),
    ("named_dollar",
      { name := "named_dollar"
        kind := StyleKind.named
        escape_char := "$"
        escape_regex := "(?P<escape>{char}\\$)"
        param_regex := "(?<!\\$)\\$(?P<param>[A-Za-z_]\\w*)"
        out_format := "${param}" }),
    ("numeric",
      { name := "numeric"
        kind := StyleKind.numeric
        escape_char := ":"
        escape_regex := "(?P<escape>{char}:)"
        param_regex := "(?<!:):(?P<param>\\d+)"
        out_format := ":{param}"
        start := 1 }),
    ("numeric_dollar",
      { name := "numeric_dollar"
        kind := StyleKind.numeric
        escape_char := "$"
        escape_regex := "(?P<escape>{char}\\$)"
        param_regex := "(?<!\\$)\\$(?P<param>\\d+)"
        out_format := "${param}"
        start := 1 }),
    ("pyformat",
      { name := "pyformat"
        kind := StyleKind.named
        escape_char := "%"
        escape_regex := "(?P<escape>{char}%)"
        param_regex := "(?<!%)%\\((?P<param>[A-Za-z_]\\w*)\\)s"
        out_format := "%({param})s" }),
    ("qmark",
      { name := "qmark"
        kind := StyleKind.ordinal
        escape_char := "?"
        escape_regex := "(?P<escape>{char}\\?)"
        param_regex := "(?<!\\?)\\?(?!\\?)"
        out_format := "?" }),
    ("named_oracle", namedOracleStyle),
    ("named_sqlserver", namedSqlServerStyle) ]

/-- Python `str.upper()`, character-wise. -/
def pyUpper (s : String) : String :=
  String.mk (s.data.map Char.toUpper)

/-- Embeds `_converting._unquote_oracle_param`: a parameter key enclosed in
double quotes is matched exactly with the quotes stripped; a key with a
quote on only one side raises `KeyError`; an unquoted key is case-folded to
uppercase. -/
def unquoteOracleParam (param : String) : Except ConvError String :=
  if param.length > 1 ∧ param.front = '"' ∧ param.back = '"' then
    Except.ok (String.mk ((param.data.drop 1).dropLast))
  else if param.length > 0 ∧ (param.front = '"' ∨ param.back = '"') then
    Except.error (ConvError.keyError param)
  else
    Except.ok (pyUpper param)

/-! ## SQLParams construction (src/sqlparams/__init__.py) -/

/-- The `escape_char` constructor argument: `str`, `bool` or `None`. -/
inductive EscapeArg where
  | none : EscapeArg
  | bool (b : Bool) : EscapeArg
  | str (s : String) : EscapeArg
deriving DecidableEq, Repr

/-- One comment style of `strip_comments`: a `str` (single line) or a
2-tuple of `str` (multiline). -/
inductive CommentStyle where
  | single (marker : String) : CommentStyle
  | multi (startMarker endMarker : String) : CommentStyle
deriving DecidableEq, Repr

/-- The `strip_comments` constructor argument: a sequence of comment
styles, a `bool`, or `None`. -/
inductive StripArg where
  | none : StripArg
  | bool (b : Bool) : StripArg
  | seq (styles : List CommentStyle) : StripArg
deriving DecidableEq, Repr

/-- `sqlparams.DEFAULT_COMMENTS`. -/
def DEFAULT_COMMENTS : List CommentStyle :=
  [CommentStyle.multi "/*" "*/", CommentStyle.single "--"]

/-- Construction failure: `_styles.STYLES[name]` raises `KeyError` for an
unregistered style name (the spec's `UnknownStyle`, surfaced immediately by
`SQLParams.__init__`). -/
inductive InitError where
  | unknownStyle (nm : String) : InitError
deriving DecidableEq, Repr

/-- The converter implementation selected by
`SQLParams.__create_converter` from the (in-kind, out-kind) pair. -/
inductive ConverterClass where
  | namedToNamed | namedToNumeric | namedToOrdinal
  | numericToNamed | numericToNumeric | numericToOrdinal
  | ordinalToNamed | ordinalToNumeric | ordinalToOrdinal
deriving DecidableEq, Repr

/-- The kind dispatch of `SQLParams.__create_converter` (its `TypeError`
branches are unreachable: every registry style has one of the three
kinds). -/
def converterClassOf : StyleKind → StyleKind → ConverterClass
  | StyleKind.named, StyleKind.named => ConverterClass.namedToNamed
  | StyleKind.named, StyleKind.numeric => ConverterClass.namedToNumeric
  | StyleKind.named, StyleKind.ordinal => ConverterClass.namedToOrdinal
  | StyleKind.numeric, StyleKind.named => ConverterClass.numericToNamed
  | StyleKind.numeric, StyleKind.numeric => ConverterClass.numericToNumeric
  | StyleKind.numeric, StyleKind.ordinal => ConverterClass.numericToOrdinal
  | StyleKind.ordinal, StyleKind.named => ConverterClass.ordinalToNamed
  | StyleKind.ordinal, StyleKind.numeric => ConverterClass.ordinalToNumeric
  | StyleKind.ordinal, StyleKind.ordinal => ConverterClass.ordinalToOrdinal

/-- The compiled scan pattern of `SQLParams.__create_in_regex`, recorded by
components: whether the `out_percent` conflict group is present, the escape
character of the escape group (when escaping is enabled), and the in-style's
`param_regex` (regex compilation itself cannot fail for the registry's
patterns). -/
structure InRegex where
  outPercent : Bool
  escapeChar : Option String
  paramRegex : String
deriving DecidableEq, Repr

/-- Embeds `SQLParams.__create_in_regex`.  In the source the escape group is
added under `if escape_char:`; the normalized escape character is never the
empty string, so the guard is its `isSome` test here. -/
def createInRegex (escapeChar : Option String) (inObj outObj : Style) : InRegex :=
  { outPercent := decide (inObj.escape_char ≠ "%" ∧ outObj.escape_char = "%")
    escapeChar := escapeChar
    paramRegex := inObj.param_regex }

/-- The constructed `SQLParams` instance state. -/
structure SQLParamsCfg where
  converter : ConverterClass
  escapeChar : Option String
  expandTuples : Bool
  inObj : Style
  inRegex : InRegex
  inStyle : String
  outObj : Style
  outQuotes : Bool
  outStyle : String
  stripComments : Option (List CommentStyle)
deriving DecidableEq, Repr

/-- Embeds `SQLParams.__init__` together with `Converter.__init__`.  The
style lookups fail with `UnknownStyle` exactly when a name is unregistered;
every other failure path of the source is a `TypeError` on an argument whose
shape the argument types here already rule out.  The `allow_out_quotes`
argument and the `_out_quotes = out_style.param_quotes and allow_out_quotes`
computation are modelled from the spec (the src snapshot of __init__.py
predates them; quoting is applied only when explicitly enabled, default
off). -/
def sqlParamsInit (inStyle outStyle : String) (escapeChar : EscapeArg)
    (expandTuples : Option Bool) (stripComments : StripArg)
    (allowOutQuotes : Bool) : Except InitError SQLParamsCfg := do
  let inObj ← match alistFind inStyle STYLES with
    | some o => Except.ok o
    | none => Except.error (InitError.unknownStyle inStyle)
  let outObj ← match alistFind outStyle STYLES with
    | some o => Except.ok o
    | none => Except.error (InitError.unknownStyle outStyle)
  let useChar : Option String :=
    match escapeChar with
    | EscapeArg.bool true => some inObj.escape_char
    | EscapeArg.none => none
    | EscapeArg.bool false => none
    | EscapeArg.str s => if s = "" then none else some s
  let useExpand : Bool :=
    match expandTuples with
    | none => decide (outObj.kind ≠ StyleKind.named)
    | some b => b
  let useStrip : Option (List CommentStyle) :=
    match stripComments with
    | StripArg.bool true => some DEFAULT_COMMENTS
    | StripArg.bool false => none
    | StripArg.none => none
    | StripArg.seq styles => some styles
  let inRegex := createInRegex useChar inObj outObj
  Except.ok
    { converter := converterClassOf inObj.kind outObj.kind
      escapeChar := useChar
      expandTuples := useExpand
      inObj := inObj
      inRegex := inRegex
      inStyle := inStyle
      outObj := outObj
      outQuotes := outObj.param_quotes && allowOutQuotes
      outStyle := outStyle
      stripComments := useStrip }

/-! ## The public façade: query text encoding (src/sqlparams/__init__.py) -/

/-- A query string argument: `str` or `bytes` (each byte a value in
0..255). -/
inductive SqlStr where
  | str (s : String) : SqlStr
  | bytes (bs : List (Fin 256)) : SqlStr

/-- Whether the query argument is a byte string. -/
def SqlStr.isBytes : SqlStr → Bool
  | .str _ => false
  | .bytes _ => true

/-- Embeds `sql.decode(_BYTES_ENCODING)` with `_BYTES_ENCODING = 'latin1'`:
byte value `b` becomes the character with code point `b`. -/
def latin1Decode (bs : List (Fin 256)) : String :=
  String.mk (bs.map (fun b => Char.ofNat b.val))

/-- Embeds `use_sql.encode(_BYTES_ENCODING)`: a character with code point
below 256 becomes that byte; any other character raises
`UnicodeEncodeError`. -/
def latin1Encode (s : String) : Except ConvError (List (Fin 256)) :=
  exceptMapM (fun c =>
    if h : c.toNat < 256 then Except.ok (⟨c.toNat, h⟩ : Fin 256)
    else Except.error ConvError.encodeError) s.data

/-- Embeds `SQLParams.format` for the default `strip_comments=None` (the
comment-stripping loop is then a no-op), parameterized by the instance's
`self.__converter.convert` call on the normalized text: a `str` query is
converted directly, a `bytes` query is decoded with latin1, converted, and
the result re-encoded with latin1; the query is returned as the type it was
supplied as. -/
def SQLParamsFormat {Out : Type} (conv : String → Except ConvError (String × Out)) :
    SqlStr → Except ConvError (SqlStr × Out)
  | SqlStr.str s => do
    let r ← conv s
    Except.ok (SqlStr.str r.1, r.2)
  | SqlStr.bytes bs => do
    let r ← conv (latin1Decode bs)
    let outBytes ← latin1Encode r.1
    Except.ok (SqlStr.bytes outBytes, r.2)

/-! ## Derived notions used by the statements and proofs -/

/-- The in-reference names of a query scan, in occurrence order. -/
def paramNamesOf (toks : List Tok) : List String :=
  toks.filterMap Tok.paramName

/-- Appends an element to a list of already-seen elements unless present. -/
def pushSeen {κ : Type} [DecidableEq κ] (seen : List κ) (k : κ) : List κ :=
  if k ∈ seen then seen else seen ++ [k]

/-- The sequence of distinct elements of a list in first-occurrence order
(so its length is the number of distinct in-references of a query). -/
def firstOccurrences {κ : Type} [DecidableEq κ] (l : List κ) : List κ :=
  l.foldl pushSeen []

/-- Whether an in-reference resolves to a non-tuple (scalar) value. -/
def fetchScalar {κ : Type} (fetch : κ → Except ConvError Value) (k : κ) : Bool :=
  match fetch k with
  | Except.ok v => !v.isTup
  | Except.error _ => false

/-- The shape of a value as far as the conversion engine's control flow is
concerned: `some n` for a tuple of `n` elements, `none` for a non-tuple. -/
def valueShape : Value → Option Nat
  | Value.tup vs => some vs.length
  | Value.sc _ => none

/-- Two named parameter sets have the same shape when every name resolves in
both or neither, and names resolving to tuples resolve to tuples of equal
length (values themselves may differ). -/
def shapeEq (p q : Params) : Bool :=
  (p.all fun kv => (alistFind kv.1 p).map valueShape == (alistFind kv.1 q).map valueShape) &&
  (q.all fun kv => (alistFind kv.1 p).map valueShape == (alistFind kv.1 q).map valueShape)

/-- Whether one plan entry passes the per-set validation of a numeric-out
`__convert_many_params` row: a simple entry needs its reference to resolve;
a tuple entry needs it to resolve to a tuple of exactly the recorded
length. -/
def numOutStepOk {κ : Type} (fetch : κ → Except ConvError Value) :
    NumOutConv κ → Bool
  | NumOutConv.simple k _ => (fetch k).toBool
  | NumOutConv.expand k outIdxs =>
    match fetch k with
    | Except.ok (Value.tup vs) => vs.length == outIdxs.length
    | _ => false

/-- Whether one plan entry passes the per-set validation of
`NamedToOrdinalConverter.__convert_many_params`. -/
def ordStepOk (inParams : Params) : OrdConv → Bool
  | OrdConv.simple nm => (getParam inParams nm).toBool
  | OrdConv.expand nm outCount =>
    match getParam inParams nm with
    | Except.ok (Value.tup vs) => vs.length == outCount
    | _ => false

/-- The plan and cache a numeric-out scan builds over references whose
values are all non-tuples: one simple conversion per distinct reference, in
first-occurrence order, with consecutive out-indices from `k`. -/
def mkSimpleConvs {κ : Type} : List κ → Nat → List (NumOutConv κ)
  | [], _ => []
  | x :: rest, k => NumOutConv.simple x k :: mkSimpleConvs rest (k + 1)

/-- The `out_lookup` cache matching `mkSimpleConvs`. -/
def mkSimpleCache {κ : Type} (fmtN : Nat → String) :
    List κ → Nat → List (NumOutKey κ × Nat × String)
  | [], _ => []
  | x :: rest, k => (NumOutKey.whole x, k, fmtN k) :: mkSimpleCache fmtN rest (k + 1)

/-- The scan state reached after resolving references with all-scalar
values: one simple conversion and one cache line per distinct reference, in
first-occurrence order, with consecutive out-indices from 0. -/
def scalarScanState {κ : Type} (fmtN : Nat → String) (seen : List κ) :
    NumOutState κ :=
  ⟨mkSimpleConvs seen 0, seen.length, mkSimpleCache fmtN seen 0⟩

/-! ## Shared lemmas -/

deriving instance DecidableEq for Except

/-- Bind on a successful `Except` computation. -/
theorem exceptBind_ok {ε α β : Type} (a : α) (f : α → Except ε β) :
    (Except.ok a >>= f : Except ε β) = f a := rfl

/-- Bind on a failed `Except` computation. -/
theorem exceptBind_error {ε α β : Type} (e : ε) (f : α → Except ε β) :
    ((Except.error e : Except ε α) >>= f) = Except.error e := rfl

/-- A code point below 256 survives `Char.ofNat`. -/
theorem charOfNat_toNat (n : Nat) (h : n < 256) : (Char.ofNat n).toNat = n := by
  unfold Char.ofNat
  rw [dif_pos (Or.inl (by omega : n < 55296))]
  rfl

/-- Decoding any byte string with latin1 and re-encoding it reproduces it
exactly. -/
theorem latin1Encode_latin1Decode (bs : List (Fin 256)) :
    latin1Encode (latin1Decode bs) = Except.ok bs := by
  induction bs with
  | nil => rfl
  | cons b rest ih =>
    have hc : (Char.ofNat b.val).toNat = b.val := charOfNat_toNat b.val b.isLt
    simp only [latin1Decode, latin1Encode] at ih ⊢
    simp only [List.map_cons, exceptMapM]
    simp only [hc, b.isLt, dite_true, dif_pos, ih]
    rfl

section
variable {κ : Type} (fetch : κ → Except ConvError Value)

/-- A numeric-out batch row succeeds from any accumulator exactly when every
plan entry passes its validation. -/
theorem numOutManyRow_fold_isOk (cs : List (NumOutConv κ)) :
    ∀ out, (List.foldlM (numOutManyRowStep fetch) out cs).isOk =
      cs.all (numOutStepOk fetch) := by
  induction cs with
  | nil => intro out; rfl
  | cons e cs ih =>
    intro out
    rw [List.foldlM_cons, List.all_cons]
    cases e with
    | simple k idx =>
      cases hf : fetch k with
      | error er =>
        simp only [numOutManyRowStep, hf, exceptBind_error]
        simp [numOutStepOk, hf, Except.toBool, Except.isOk]
      | ok v =>
        simp only [numOutManyRowStep, hf, exceptBind_ok]
        have hs : numOutStepOk fetch (NumOutConv.simple k idx) = true := by
          simp [numOutStepOk, hf, Except.toBool]
        rw [hs, Bool.true_and]
        exact ih _
    | expand k idxs =>
      cases hf : fetch k with
      | error er =>
        simp only [numOutManyRowStep, hf, exceptBind_error]
        simp [numOutStepOk, hf, Except.isOk, Except.toBool]
      | ok v =>
        cases v with
        | sc a =>
          simp only [numOutManyRowStep, hf, exceptBind_ok, exceptBind_error]
          simp [numOutStepOk, hf, Except.isOk, Except.toBool]
        | tup vs =>
          by_cases hl : vs.length = idxs.length
          · simp only [numOutManyRowStep, hf, exceptBind_ok, hl, ne_eq,
              not_true_eq_false, if_false, ite_false]
            have hs : numOutStepOk fetch (NumOutConv.expand k idxs) = true := by
              simp [numOutStepOk, hf, hl]
            rw [hs, Bool.true_and]
            exact ih _
          · simp only [numOutManyRowStep, hf, exceptBind_ok, hl, ne_eq,
              not_false_eq_true, if_true, ite_true, exceptBind_error]
            simp [numOutStepOk, hf, hl, Except.isOk, Except.toBool]
end

section
variable {κ : Type} (fetch : κ → Except ConvError Value)

/-- A validated entry executes successfully from any accumulator. -/
theorem numOutStepOk_ok {e : NumOutConv κ} (h : numOutStepOk fetch e = true)
    (out : List Value) :
    ∃ out', numOutManyRowStep fetch out e = Except.ok out' := by
  cases e with
  | simple k idx =>
    rw [numOutStepOk] at h
    cases hf : fetch k with
    | error er => rw [hf] at h; exact absurd h (by simp [Except.toBool])
    | ok v =>
      exact ⟨out.set idx v, by simp only [numOutManyRowStep, hf, exceptBind_ok]⟩
  | expand k idxs =>
    rw [numOutStepOk] at h
    cases hf : fetch k with
    | error er => rw [hf] at h; exact absurd h (by simp)
    | ok v =>
      rw [hf] at h
      cases v with
      | sc a => exact absurd h (by simp)
      | tup vs =>
        have hl : vs.length = idxs.length := by simpa using h
        refine ⟨setZip out idxs vs, ?_⟩
        simp only [numOutManyRowStep, hf, exceptBind_ok, hl, ne_eq,
          not_true_eq_false, if_false, ite_false]

/-- A prefix of validated entries only advances the accumulator. -/
theorem numOutManyRow_fold_append_ok {pre : List (NumOutConv κ)}
    (hpre : ∀ e ∈ pre, numOutStepOk fetch e = true) (rest : List (NumOutConv κ)) :
    ∀ out, ∃ out', List.foldlM (numOutManyRowStep fetch) out (pre ++ rest) =
      List.foldlM (numOutManyRowStep fetch) out' rest := by
  induction pre with
  | nil => intro out; exact ⟨out, rfl⟩
  | cons e pre ih =>
    intro out
    obtain ⟨out1, h1⟩ := numOutStepOk_ok fetch (hpre e (by simp)) out
    obtain ⟨out', h'⟩ := ih (fun e2 he => hpre e2 (by simp [he])) out1
    refine ⟨out', ?_⟩
    rw [List.cons_append, List.foldlM_cons, h1, exceptBind_ok, h']

/-- An Expanded entry whose fetched value is not a tuple raises
`TypeError`. -/
theorem numOutManyRowStep_expand_nontup {k : κ} {v : Value}
    (hf : fetch k = Except.ok v) (hv : v.isTup = false) (out : List Value)
    (idxs : List Nat) :
    numOutManyRowStep fetch out (NumOutConv.expand k idxs) =
      Except.error ConvError.typeError := by
  cases v with
  | tup vs => exact absurd hv (by simp [Value.isTup])
  | sc a => simp only [numOutManyRowStep, hf, exceptBind_ok]

/-- An Expanded entry whose fetched tuple has the wrong length raises
`ValueError`. -/
theorem numOutManyRowStep_expand_badlen {k : κ} {vs : List Scalar}
    (hf : fetch k = Except.ok (Value.tup vs)) {idxs : List Nat}
    (hl : vs.length ≠ idxs.length) (out : List Value) :
    numOutManyRowStep fetch out (NumOutConv.expand k idxs) =
      Except.error ConvError.valueError := by
  simp only [numOutManyRowStep, hf, exceptBind_ok, hl, ne_eq,
    not_false_eq_true, if_true, ite_true]

end


/-- An ordinal-out batch row succeeds from any accumulator exactly when
every plan entry passes its validation. -/
theorem NamedToOrdinalConverter.manyRow_fold_isOk (p : Params) (cs : List OrdConv) :
    ∀ out, (List.foldlM (NamedToOrdinalConverter.manyRowStep p) out cs).isOk = cs.all (ordStepOk p) := by
  induction cs with
  | nil => intro out; rfl
  | cons e cs ih =>
    intro out
    rw [List.foldlM_cons, List.all_cons]
    cases e with
    | simple nm =>
      cases hf : getParam p nm with
      | error er =>
        simp only [NamedToOrdinalConverter.manyRowStep, hf, exceptBind_error]
        simp [ordStepOk, hf, Except.isOk, Except.toBool]
      | ok v =>
        simp only [NamedToOrdinalConverter.manyRowStep, hf, exceptBind_ok]
        have hs : ordStepOk p (OrdConv.simple nm) = true := by
          simp [ordStepOk, hf, Except.toBool]
        rw [hs, Bool.true_and]
        exact ih _
    | expand nm cnt =>
      cases hf : getParam p nm with
      | error er =>
        simp only [NamedToOrdinalConverter.manyRowStep, hf, exceptBind_error]
        simp [ordStepOk, hf, Except.isOk, Except.toBool]
      | ok v =>
        cases v with
        | sc a =>
          simp only [NamedToOrdinalConverter.manyRowStep, hf, exceptBind_ok, exceptBind_error]
          simp [ordStepOk, hf, Except.isOk, Except.toBool]
        | tup vs =>
          by_cases hl : vs.length = cnt
          · simp only [NamedToOrdinalConverter.manyRowStep, hf, exceptBind_ok, hl, ne_eq,
              not_true_eq_false, if_false, ite_false]
            have hs : ordStepOk p (OrdConv.expand nm cnt) = true := by
              simp [ordStepOk, hf, hl]
            rw [hs, Bool.true_and]
            exact ih _
          · simp only [NamedToOrdinalConverter.manyRowStep, hf, exceptBind_ok, hl, ne_eq,
              not_false_eq_true, if_true, ite_true, exceptBind_error]
            simp [ordStepOk, hf, hl, Except.isOk, Except.toBool]

/-- A validated ordinal entry executes successfully from any
accumulator. -/
theorem NamedToOrdinalConverter.ordStepOk_ok {p : Params} {e : OrdConv} (h : ordStepOk p e = true)
    (out : List Value) : ∃ out', NamedToOrdinalConverter.manyRowStep p out e = Except.ok out' := by
  cases e with
  | simple nm =>
    rw [ordStepOk] at h
    cases hf : getParam p nm with
    | error er => rw [hf] at h; exact absurd h (by simp [Except.toBool])
    | ok v =>
      exact ⟨out ++ [v], by simp only [NamedToOrdinalConverter.manyRowStep, hf, exceptBind_ok]⟩
  | expand nm cnt =>
    rw [ordStepOk] at h
    cases hf : getParam p nm with
    | error er => rw [hf] at h; exact absurd h (by simp)
    | ok v =>
      rw [hf] at h
      cases v with
      | sc a => exact absurd h (by simp)
      | tup vs =>
        have hl : vs.length = cnt := by simpa using h
        refine ⟨out ++ vs.map Value.sc, ?_⟩
        simp only [NamedToOrdinalConverter.manyRowStep, hf, exceptBind_ok, hl, ne_eq,
          not_true_eq_false, if_false, ite_false]

/-- A prefix of validated ordinal entries only advances the
accumulator. -/
theorem NamedToOrdinalConverter.manyRow_fold_append_ok {p : Params} {pre : List OrdConv}
    (hpre : ∀ e ∈ pre, ordStepOk p e = true) (rest : List OrdConv) :
    ∀ out, ∃ out', List.foldlM (NamedToOrdinalConverter.manyRowStep p) out (pre ++ rest) =
      List.foldlM (NamedToOrdinalConverter.manyRowStep p) out' rest := by
  induction pre with
  | nil => intro out; exact ⟨out, rfl⟩
  | cons e pre ih =>
    intro out
    obtain ⟨out1, h1⟩ := NamedToOrdinalConverter.ordStepOk_ok (hpre e (by simp)) out
    obtain ⟨out', h'⟩ := ih (fun e2 he => hpre e2 (by simp [he])) out1
    refine ⟨out', ?_⟩
    rw [List.cons_append, List.foldlM_cons, h1, exceptBind_ok, h']

/-- An ordinal Expanded entry whose value is not a tuple raises
`TypeError`. -/
theorem NamedToOrdinalConverter.manyRowStep_expand_nontup {p : Params} {nm : String} {v : Value}
    (hf : getParam p nm = Except.ok v) (hv : v.isTup = false) (out : List Value)
    (cnt : Nat) :
    NamedToOrdinalConverter.manyRowStep p out (OrdConv.expand nm cnt) = Except.error ConvError.typeError := by
  cases v with
  | tup vs => exact absurd hv (by simp [Value.isTup])
  | sc a => simp only [NamedToOrdinalConverter.manyRowStep, hf, exceptBind_ok]

/-- An ordinal Expanded entry whose tuple value has the wrong length
raises `ValueError`. -/
theorem NamedToOrdinalConverter.manyRowStep_expand_badlen {p : Params} {nm : String} {vs : List Scalar}
    (hf : getParam p nm = Except.ok (Value.tup vs)) {cnt : Nat}
    (hl : vs.length ≠ cnt) (out : List Value) :
    NamedToOrdinalConverter.manyRowStep p out (OrdConv.expand nm cnt) = Except.error ConvError.valueError := by
  simp only [NamedToOrdinalConverter.manyRowStep, hf, exceptBind_ok, hl, ne_eq,
    not_false_eq_true, if_true, ite_true]



/-- If any element of the batch fails, the whole per-set loop produces no
output. -/
theorem exceptMapM_not_ok_of_mem_error {α β : Type}
    (f : α → Except ConvError β) {xs : List α} {x : α} (hx : x ∈ xs)
    {er : ConvError} (hf : f x = Except.error er) :
    ¬∃ ys, exceptMapM f xs = Except.ok ys := by
  induction xs with
  | nil => cases hx
  | cons y ys ih =>
    rintro ⟨out, hout⟩
    rw [exceptMapM] at hout
    rcases List.mem_cons.mp hx with hxy | hxs
    · rw [← hxy, hf, exceptBind_error] at hout
      exact Except.noConfusion hout
    · cases hfy : f y with
      | error er2 => rw [hfy, exceptBind_error] at hout; exact Except.noConfusion hout
      | ok b =>
        rw [hfy, exceptBind_ok] at hout
        cases hmm : exceptMapM f ys with
        | error er3 => rw [hmm, exceptBind_error] at hout; exact Except.noConfusion hout
        | ok bs => exact ih hxs ⟨bs, hmm⟩



/-- An invariant preserved by every successful callback step is preserved
by a whole scan. -/
theorem runSub_preserves {σ : Type} (P : σ → Prop)
    (replace : σ → String → Except ConvError (String × σ))
    (hstep : ∀ st nm r st', replace st nm = Except.ok (r, st') → P st → P st') :
    ∀ (toks : List Tok) (st : σ) (s : String) (st' : σ),
      runSub replace st toks = Except.ok (s, st') → P st → P st' := by
  intro toks
  induction toks with
  | nil =>
    intro st s st' h hP
    rw [runSub] at h
    cases Except.ok.inj h
    exact hP
  | cons t rest ih =>
    intro st s st' h hP
    cases t with
    | lit c =>
      rw [runSub] at h
      cases hr : runSub replace st rest with
      | error er => rw [hr, exceptBind_error] at h; exact Except.noConfusion h
      | ok r =>
        rw [hr, exceptBind_ok] at h
        cases Except.ok.inj h
        exact ih st r.1 r.2 hr hP
    | param nm =>
      rw [runSub] at h
      cases hp : replace st nm with
      | error er => rw [hp, exceptBind_error] at h; exact Except.noConfusion h
      | ok pr =>
        rw [hp, exceptBind_ok] at h
        cases hr : runSub replace pr.2 rest with
        | error er => rw [hr, exceptBind_error] at h; exact Except.noConfusion h
        | ok r =>
          rw [hr, exceptBind_ok] at h
          cases Except.ok.inj h
          exact ih pr.2 r.1 r.2 hr (hstep st nm pr.1 pr.2 hp hP)

/-- One numeric-out replace step never records an entry for a key whose
value is the empty tuple (and preserves the absence of such entries). -/
theorem numOutRegexReplace_no_entry_for_empty {κ : Type} [DecidableEq κ]
    (outFormat : String) (outStart : Nat) (fetch : κ → Except ConvError Value)
    (a : κ) (hfa : fetch a = Except.ok (Value.tup []))
    (st : NumOutState κ) (k : κ) (r : String) (st' : NumOutState κ)
    (h : numOutRegexReplace true outFormat outStart fetch st k = Except.ok (r, st'))
    (hP : ∀ e ∈ st.convs, NumOutConv.key e ≠ a) :
    ∀ e ∈ st'.convs, NumOutConv.key e ≠ a := by
  by_cases hka : k = a
  · subst hka
    rw [numOutRegexReplace, hfa, exceptBind_ok] at h
    dsimp only at h
    cases Except.ok.inj h
    exact hP
  · rw [numOutRegexReplace] at h
    cases hf : fetch k with
    | error er => rw [hf, exceptBind_error] at h; exact Except.noConfusion h
    | ok v =>
      rw [hf, exceptBind_ok] at h
      cases v with
      | sc b =>
        dsimp only at h
        rw [numOutSimple] at h
        cases hc : alistFind (NumOutKey.whole k) st.cache with
        | some pr =>
          rw [hc] at h
          dsimp only at h
          cases Except.ok.inj h
          exact hP
        | none =>
          rw [hc] at h
          dsimp only at h
          cases Except.ok.inj h
          intro e he
          rcases List.mem_append.mp he with hold | hnew
          · exact hP e hold
          · rcases List.mem_singleton.mp hnew with rfl
            exact hka
      | tup vs =>
        cases vs with
        | nil =>
          dsimp only at h
          cases Except.ok.inj h
          exact hP
        | cons v0 vs0 =>
          dsimp only at h
          cases Except.ok.inj h
          dsimp only
          cases hnew : (numOutExpandLoop outFormat outStart k st.cache st.counter true
              (List.range (v0 :: vs0).length)).isNew with
          | false =>
            simp only [hnew, if_false, ite_false, Bool.false_eq_true]
            exact hP
          | true =>
            simp only [hnew, if_true, ite_true]
            intro e he
            rcases List.mem_append.mp he with hold | hnew2
            · exact hP e hold
            · rcases List.mem_singleton.mp hnew2 with rfl
              exact hka



/-- A batch row depends on the parameter set only at the keys recorded in
the plan. -/
theorem numOutManyRow_fold_congr {κ : Type}
    (fetch1 fetch2 : κ → Except ConvError Value) (convs : List (NumOutConv κ))
    (h : ∀ e ∈ convs, fetch1 (NumOutConv.key e) = fetch2 (NumOutConv.key e)) :
    ∀ out, List.foldlM (numOutManyRowStep fetch1) out convs =
      List.foldlM (numOutManyRowStep fetch2) out convs := by
  induction convs with
  | nil => intro out; rfl
  | cons e convs ih =>
    intro out
    rw [List.foldlM_cons, List.foldlM_cons]
    have hstep : numOutManyRowStep fetch1 out e = numOutManyRowStep fetch2 out e := by
      cases e with
      | simple k idx =>
        have hk := h (NumOutConv.simple k idx) (by simp)
        rw [NumOutConv.key] at hk
        simp only [numOutManyRowStep, hk]
      | expand k idxs =>
        have hk := h (NumOutConv.expand k idxs) (by simp)
        rw [NumOutConv.key] at hk
        simp only [numOutManyRowStep, hk]
    rw [hstep]
    cases hs : numOutManyRowStep fetch2 out e with
    | error er => rw [exceptBind_error, exceptBind_error]
    | ok out1 =>
      rw [exceptBind_ok, exceptBind_ok]
      exact ih (fun e2 he2 => h e2 (by simp [he2])) out1

/-- The per-set loop maps pointwise-equal computations over related lists to
the same result. -/
theorem exceptMapM_congr_forall2 {α β γ : Type}
    (f : α → Except ConvError γ) (g : β → Except ConvError γ)
    {xs : List α} {ys : List β}
    (h : List.Forall₂ (fun x y => f x = g y) xs ys) :
    exceptMapM f xs = exceptMapM g ys := by
  induction h with
  | nil => rfl
  | cons hxy _ ih =>
    rw [exceptMapM, exceptMapM, hxy, ih]



/-- A found key is a key of the list. -/
theorem alistFind_some_mem {κ β : Type} [DecidableEq κ] {nm : κ}
    {l : List (κ × β)} {v : β} (h : alistFind nm l = some v) :
    ∃ kv, kv ∈ l ∧ kv.1 = nm := by
  induction l with
  | nil => cases h
  | cons kv rest ih =>
    rw [alistFind] at h
    by_cases hk : kv.1 = nm
    · exact ⟨kv, List.mem_cons_self kv rest, hk⟩
    · rw [if_neg hk] at h
      obtain ⟨kv2, hmem, hkey⟩ := ih h
      exact ⟨kv2, List.mem_cons_of_mem kv hmem, hkey⟩

/-- shapeEq gives pointwise shape agreement of lookups, at every name. -/
theorem shapeEq_lookup {p q : Params} (h : shapeEq p q = true) (nm : String) :
    (alistFind nm p).map valueShape = (alistFind nm q).map valueShape := by
  rw [shapeEq, Bool.and_eq_true, List.all_eq_true, List.all_eq_true] at h
  cases hp : alistFind nm p with
  | some v =>
    obtain ⟨kv, hmem, hkey⟩ := alistFind_some_mem hp
    have h2 := h.1 kv hmem
    rw [hkey] at h2
    rw [← hp]
    exact eq_of_beq h2
  | none =>
    cases hq : alistFind nm q with
    | none => rfl
    | some w =>
      obtain ⟨kv, hmem, hkey⟩ := alistFind_some_mem hq
      have h2 := h.2 kv hmem
      rw [hkey] at h2
      rw [← hp, ← hq]
      exact eq_of_beq h2

/-- shapeEq is reflexive. -/
theorem shapeEq_refl (p : Params) : shapeEq p p = true := by
  rw [shapeEq, Bool.and_eq_true, List.all_eq_true]
  exact ⟨fun kv _ => beq_self_eq_true _, fun kv _ => beq_self_eq_true _⟩

/-- The shape agreement transported to `getParam`: at every name both
parameter sets fail with the same `KeyError`, or both resolve to values of
the same shape. -/
theorem getParam_shape {p q : Params} (h : shapeEq p q = true) (nm : String) :
    (getParam p nm = Except.error (ConvError.keyError nm)
      ∧ getParam q nm = Except.error (ConvError.keyError nm))
    ∨ ∃ v w, getParam p nm = Except.ok v ∧ getParam q nm = Except.ok w ∧
        valueShape v = valueShape w := by
  have hl := shapeEq_lookup h nm
  cases hp : alistFind nm p with
  | none =>
    cases hq : alistFind nm q with
    | none => exact Or.inl ⟨by rw [getParam, hp], by rw [getParam, hq]⟩
    | some w => rw [hp, hq] at hl; exact absurd hl (by simp)
  | some v =>
    cases hq : alistFind nm q with
    | none => rw [hp, hq] at hl; exact absurd hl (by simp)
    | some w =>
      refine Or.inr ⟨v, w, by rw [getParam, hp], by rw [getParam, hq], ?_⟩
      rw [hp, hq] at hl
      simpa using hl



/-- Two shape-agreeing fetches drive a numeric-out replace step to
identical results: the emitted text and the state evolution depend only on
the shape of the fetched value, never on its contents. -/
theorem numOutRegexReplace_congr_shape {κ : Type} [DecidableEq κ]
    (expandTuples : Bool) (outFormat : String) (outStart : Nat)
    (fetch1 fetch2 : κ → Except ConvError Value)
    (hsh : ∀ k, (∃ er, fetch1 k = Except.error er ∧ fetch2 k = Except.error er)
      ∨ ∃ v w, fetch1 k = Except.ok v ∧ fetch2 k = Except.ok w ∧
          valueShape v = valueShape w)
    (st : NumOutState κ) (k : κ) :
    numOutRegexReplace expandTuples outFormat outStart fetch1 st k =
      numOutRegexReplace expandTuples outFormat outStart fetch2 st k := by
  rcases hsh k with ⟨er, h1, h2⟩ | ⟨v, w, h1, h2, hvw⟩
  · rw [numOutRegexReplace, numOutRegexReplace, h1, h2]
  · rw [numOutRegexReplace, numOutRegexReplace, h1, h2,
      exceptBind_ok, exceptBind_ok]
    cases v with
    | sc a =>
      cases w with
      | sc b => rfl
      | tup ws => exact absurd hvw (by simp [valueShape])
    | tup vs =>
      cases w with
      | sc b => exact absurd hvw (by simp [valueShape])
      | tup ws =>
        have hlen : vs.length = ws.length := by simpa [valueShape] using hvw
        cases expandTuples with
        | false => rfl
        | true =>
          cases vs with
          | nil =>
            cases ws with
            | nil => rfl
            | cons w0 ws0 => exact absurd hlen (by simp)
          | cons v0 vs0 =>
            cases ws with
            | nil => exact absurd hlen (by simp)
            | cons w0 ws0 =>
              dsimp only
              rw [hlen]
              simp only [List.isEmpty_cons, Bool.false_eq_true, if_false,
                ite_false]

/-- The out-indices produced by the expand loop are as many as the element
positions iterated. -/
theorem numOutExpandLoop_outIdxs_length {κ : Type} [DecidableEq κ]
    (outFormat : String) (outStart : Nat) (k : κ) :
    ∀ (l : List Nat) (cache : List (NumOutKey κ × Nat × String))
      (counter : Nat) (isNew : Bool),
      (numOutExpandLoop outFormat outStart k cache counter isNew l).outIdxs.length
        = l.length := by
  intro l
  induction l with
  | nil => intro cache counter isNew; rfl
  | cons i rest ih =>
    intro cache counter isNew
    rw [numOutExpandLoop]
    cases hfind : alistFind (NumOutKey.elem k i) cache with
    | some pr =>
      dsimp only
      rw [List.length_cons, ih]
      rfl
    | none =>
      dsimp only
      rw [List.length_cons, ih]
      rfl

/-- A successful numeric-out replace step leaves every plan entry — old and
new — validated against the parameter set it scanned. -/
theorem numOutRegexReplace_preserves_stepOk {κ : Type} [DecidableEq κ]
    (expandTuples : Bool) (outFormat : String) (outStart : Nat)
    (fetch : κ → Except ConvError Value) (st : NumOutState κ) (k : κ)
    (r : String) (st' : NumOutState κ)
    (h : numOutRegexReplace expandTuples outFormat outStart fetch st k =
      Except.ok (r, st'))
    (hP : ∀ e ∈ st.convs, numOutStepOk fetch e = true) :
    ∀ e ∈ st'.convs, numOutStepOk fetch e = true := by
  rw [numOutRegexReplace] at h
  cases hf : fetch k with
  | error er => rw [hf, exceptBind_error] at h; exact Except.noConfusion h
  | ok v =>
    rw [hf, exceptBind_ok] at h
    have hsimple : ∀ (q : String × NumOutState κ),
        q = numOutSimple outFormat outStart k st →
        ∀ e ∈ q.2.convs, numOutStepOk fetch e = true := by
      intro q hq
      rw [hq, numOutSimple]
      cases hc : alistFind (NumOutKey.whole k) st.cache with
      | some pr => exact hP
      | none =>
        intro e he
        rcases List.mem_append.mp he with hold | hnew
        · exact hP e hold
        · rcases List.mem_singleton.mp hnew with rfl
          rw [numOutStepOk, hf]
          rfl
    cases v with
    | sc b =>
      dsimp only at h
      have hst := Except.ok.inj h
      exact hsimple (r, st') hst.symm
    | tup vs =>
      cases expandTuples with
      | false =>
        dsimp only at h
        have hst := Except.ok.inj h
        exact hsimple (r, st') hst.symm
      | true =>
        cases vs with
        | nil =>
          dsimp only at h
          cases Except.ok.inj h
          exact hP
        | cons v0 vs0 =>
          dsimp only at h
          cases Except.ok.inj h
          dsimp only
          cases hnew : (numOutExpandLoop outFormat outStart k st.cache st.counter
              true (List.range (v0 :: vs0).length)).isNew with
          | false =>
            simp only [hnew, if_false, ite_false, Bool.false_eq_true]
            exact hP
          | true =>
            simp only [hnew, if_true, ite_true]
            intro e he
            rcases List.mem_append.mp he with hold | hnew2
            · exact hP e hold
            · rcases List.mem_singleton.mp hnew2 with rfl
              rw [numOutStepOk, hf]
              dsimp only
              have hlen := numOutExpandLoop_outIdxs_length outFormat outStart k
                (List.range (v0 :: vs0).length) st.cache st.counter true
              rw [List.length_range] at hlen
              simp only [List.length_cons] at hlen ⊢
              rw [hlen]
              exact beq_self_eq_true _



/-- A plan entry validated against one parameter set is validated against
any set of the same shape. -/
theorem numOutStepOk_of_shapeEq {p q : Params} (h : shapeEq p q = true)
    {e : NumOutConv String} (he : numOutStepOk (getParam p) e = true) :
    numOutStepOk (getParam q) e = true := by
  cases e with
  | simple k idx =>
    rw [numOutStepOk] at he ⊢
    rcases getParam_shape h k with ⟨hp, hq⟩ | ⟨v, w, hp, hq, hvw⟩
    · rw [hp] at he; exact absurd he (by simp [Except.toBool])
    · rw [hq]; rfl
  | expand k idxs =>
    rw [numOutStepOk] at he ⊢
    rcases getParam_shape h k with ⟨hp, hq⟩ | ⟨v, w, hp, hq, hvw⟩
    · rw [hp] at he; exact absurd he (by simp)
    · rw [hp] at he
      rw [hq]
      cases v with
      | sc a => exact absurd he (by simp)
      | tup vs =>
        cases w with
        | sc b => exact absurd hvw (by simp [valueShape])
        | tup ws =>
          dsimp only at he ⊢
          have hlen : vs.length = ws.length := by simpa [valueShape] using hvw
          rw [← hlen]
          exact he

/-- When every entry is validated, the batch-row replay (with guards)
computes exactly the single-shot replay (without guards). -/
theorem numOutManyRow_fold_eq_params {κ : Type}
    (fetch : κ → Except ConvError Value) (convs : List (NumOutConv κ))
    (h : ∀ e ∈ convs, numOutStepOk fetch e = true) :
    ∀ out, List.foldlM (numOutManyRowStep fetch) out convs =
      List.foldlM (numOutParamsStep fetch) out convs := by
  induction convs with
  | nil => intro out; rfl
  | cons e convs ih =>
    intro out
    rw [List.foldlM_cons, List.foldlM_cons]
    have hstep : numOutManyRowStep fetch out e = numOutParamsStep fetch out e := by
      cases e with
      | simple k idx => rfl
      | expand k idxs =>
        have he := h (NumOutConv.expand k idxs) (by simp)
        rw [numOutStepOk] at he
        cases hf : fetch k with
        | error er =>
          rw [numOutManyRowStep, numOutParamsStep, hf, exceptBind_error,
            exceptBind_error]
        | ok v =>
          rw [hf] at he
          cases v with
          | sc a => exact absurd he (by simp)
          | tup vs =>
            have hlen : vs.length = idxs.length := by simpa using he
            rw [numOutManyRowStep, numOutParamsStep, hf]
            rw [exceptBind_ok, exceptBind_ok]
            dsimp only
            rw [if_neg (by rw [hlen]; exact fun hh => hh rfl)]
    rw [hstep]
    cases hs : numOutParamsStep fetch out e with
    | error er => rw [exceptBind_error, exceptBind_error]
    | ok out1 =>
      rw [exceptBind_ok, exceptBind_ok]
      exact ih (fun e2 he2 => h e2 (by simp [he2])) out1

/-- A successful per-set loop yields one output per input. -/
theorem exceptMapM_ok_length {α β ε : Type} (f : α → Except ε β) :
    ∀ {xs : List α} {ys : List β}, exceptMapM f xs = Except.ok ys →
      ys.length = xs.length := by
  intro xs
  induction xs with
  | nil =>
    intro ys h
    rw [exceptMapM] at h
    cases Except.ok.inj h
    rfl
  | cons x xs ih =>
    intro ys h
    rw [exceptMapM] at h
    cases hfx : f x with
    | error er => rw [hfx, exceptBind_error] at h; exact Except.noConfusion h
    | ok y =>
      rw [hfx, exceptBind_ok] at h
      cases hrest : exceptMapM f xs with
      | error er => rw [hrest, exceptBind_error] at h; exact Except.noConfusion h
      | ok ys2 =>
        rw [hrest, exceptBind_ok] at h
        cases Except.ok.inj h
        rw [List.length_cons, List.length_cons, ih hrest]

/-- A successful per-set loop computes `f` at every position. -/
theorem exceptMapM_ok_get {α β ε : Type} (f : α → Except ε β) :
    ∀ {xs : List α} {ys : List β}, exceptMapM f xs = Except.ok ys →
      ∀ {i : Nat} {x : α}, xs[i]? = some x →
        ∃ y, ys[i]? = some y ∧ f x = Except.ok y := by
  intro xs
  induction xs with
  | nil =>
    intro ys h i x hx
    cases hx
  | cons x0 xs ih =>
    intro ys h i x hx
    rw [exceptMapM] at h
    cases hfx : f x0 with
    | error er => rw [hfx, exceptBind_error] at h; exact Except.noConfusion h
    | ok y0 =>
      rw [hfx, exceptBind_ok] at h
      cases hrest : exceptMapM f xs with
      | error er => rw [hrest, exceptBind_error] at h; exact Except.noConfusion h
      | ok ys2 =>
        rw [hrest, exceptBind_ok] at h
        cases Except.ok.inj h
        cases i with
        | zero =>
          rw [List.getElem?_cons_zero] at hx
          cases Option.some.inj hx
          exact ⟨y0, by simp, hfx⟩
        | succ i =>
          rw [List.getElem?_cons_succ] at hx
          obtain ⟨y, hy, hfy⟩ := ih hrest hx
          exact ⟨y, by rw [List.getElem?_cons_succ]; exact hy, hfy⟩

/-- Unfolds `runSub` on a literal token. -/
theorem runSub_lit {σ : Type} (replace : σ → String → Except ConvError (String × σ))
    (st : σ) (c : Char) (rest : List Tok) :
    runSub replace st (Tok.lit c :: rest) =
      (runSub replace st rest >>= fun r =>
        Except.ok (String.singleton c ++ r.1, r.2)) := rfl

/-- Unfolds `runSub` on a parameter token. -/
theorem runSub_param {σ : Type} (replace : σ → String → Except ConvError (String × σ))
    (st : σ) (nm : String) (rest : List Tok) :
    runSub replace st (Tok.param nm :: rest) =
      (replace st nm >>= fun pr =>
        runSub replace pr.2 rest >>= fun r =>
          Except.ok (pr.1 ++ r.1, r.2)) := rfl

/-- mkSimpleConvs over an appended element. -/
theorem mkSimpleConvs_append {κ : Type} (xs : List κ) (k : κ) :
    ∀ j, mkSimpleConvs (xs ++ [k]) j =
      mkSimpleConvs xs j ++ [NumOutConv.simple k (j + xs.length)] := by
  induction xs with
  | nil => intro j; simp [mkSimpleConvs]
  | cons x xs ih =>
    intro j
    rw [List.cons_append, mkSimpleConvs, mkSimpleConvs, ih (j + 1)]
    simp only [List.cons_append, List.length_cons]
    rw [Nat.add_comm xs.length 1, ← Nat.add_assoc]

/-- mkSimpleCache over an appended element. -/
theorem mkSimpleCache_append {κ : Type} (fmtN : Nat → String) (xs : List κ) (k : κ) :
    ∀ j, mkSimpleCache fmtN (xs ++ [k]) j =
      mkSimpleCache fmtN xs j ++ [(NumOutKey.whole k, j + xs.length, fmtN (j + xs.length))] := by
  induction xs with
  | nil => intro j; simp [mkSimpleCache]
  | cons x xs ih =>
    intro j
    rw [List.cons_append, mkSimpleCache, mkSimpleCache, ih (j + 1)]
    simp only [List.cons_append, List.length_cons]
    rw [Nat.add_comm xs.length 1, ← Nat.add_assoc]

/-- A key absent from the seen list is absent from the cache. -/
theorem alistFind_mkSimpleCache_none {κ : Type} [DecidableEq κ] (fmtN : Nat → String) {k : κ}
    {seen : List κ} (h : k ∉ seen) :
    ∀ j, alistFind (NumOutKey.whole k) (mkSimpleCache fmtN seen j) = none := by
  induction seen with
  | nil => intro j; rfl
  | cons x xs ih =>
    intro j
    rw [mkSimpleCache, alistFind]
    rw [if_neg (fun hh => h (by rw [NumOutKey.whole.inj hh]; exact List.mem_cons_self k xs))]
    exact ih (fun hm => h (List.mem_cons_of_mem x hm)) (j + 1)

/-- A key in the seen list is found in the cache. -/
theorem alistFind_mkSimpleCache_some {κ : Type} [DecidableEq κ] (fmtN : Nat → String) {k : κ}
    {seen : List κ} (h : k ∈ seen) :
    ∀ j, ∃ pr, alistFind (NumOutKey.whole k) (mkSimpleCache fmtN seen j) = some pr := by
  induction seen with
  | nil => cases h
  | cons x xs ih =>
    intro j
    rw [mkSimpleCache, alistFind]
    by_cases hx : x = k
    · rw [if_pos (by rw [hx])]
      exact ⟨(j, fmtN j), rfl⟩
    · rw [if_neg (fun hh => hx (NumOutKey.whole.inj hh))]
      rcases List.mem_cons.mp h with hk | hk
      · exact absurd hk.symm hx
      · exact ih hk (j + 1)

/-- Membership in a pushSeen fold. -/
theorem mem_foldl_pushSeen {κ : Type} [DecidableEq κ] (k : κ) :
    ∀ (l : List κ) (seen : List κ),
      (k ∈ List.foldl pushSeen seen l ↔ k ∈ seen ∨ k ∈ l) := by
  intro l
  induction l with
  | nil => intro seen; simp
  | cons x xs ih =>
    intro seen
    rw [List.foldl_cons]
    rw [ih (pushSeen seen x)]
    constructor
    · rintro (hk | hk)
      · rw [pushSeen] at hk
        by_cases hx : x ∈ seen
        · rw [if_pos hx] at hk
          exact Or.inl hk
        · rw [if_neg hx] at hk
          rcases List.mem_append.mp hk with hk | hk
          · exact Or.inl hk
          · exact Or.inr (by rw [List.mem_singleton.mp hk]; exact List.mem_cons_self x xs)
      · exact Or.inr (List.mem_cons_of_mem x hk)
    · rintro (hk | hk)
      · refine Or.inl ?_
        rw [pushSeen]
        by_cases hx : x ∈ seen
        · rw [if_pos hx]; exact hk
        · rw [if_neg hx]; exact List.mem_append_left _ hk
      · rcases List.mem_cons.mp hk with hk | hk
        · refine Or.inl ?_
          rw [pushSeen]
          by_cases hx : x ∈ seen
          · rw [if_pos hx]; rw [hk]; exact hx
          · rw [if_neg hx]; rw [hk]; exact List.mem_append_right _ (List.mem_singleton.mpr rfl)
        · exact Or.inr hk

/-- A pushSeen fold of a non-empty accumulator stays non-empty. -/
theorem foldl_pushSeen_ne_nil {κ : Type} [DecidableEq κ] :
    ∀ (l seen : List κ), seen ≠ [] → List.foldl pushSeen seen l ≠ [] := by
  intro l
  induction l with
  | nil => intro seen h; exact h
  | cons x xs ih =>
    intro seen h
    rw [List.foldl_cons]
    refine ih _ ?_
    rw [pushSeen]
    by_cases hx : x ∈ seen
    · rw [if_pos hx]; exact h
    · rw [if_neg hx]
      intro hc
      exact absurd (List.append_eq_nil.mp hc).2 (by simp)

/-- The distinct elements of a non-empty list form a non-empty list. -/
theorem firstOccurrences_cons_ne_nil {κ : Type} [DecidableEq κ] (d : κ) (ds : List κ) :
    firstOccurrences (d :: ds) ≠ [] := by
  unfold firstOccurrences
  rw [List.foldl_cons]
  refine foldl_pushSeen_ne_nil ds (pushSeen [] d) ?_
  simp [pushSeen]

/-- The last entry of a non-empty run of simple conversions. -/
theorem mkSimpleConvs_getLast {κ : Type} (d : κ) (ds : List κ) :
    ∀ j, ∃ k, (mkSimpleConvs (d :: ds) j).getLast? =
      some (NumOutConv.simple k (j + ds.length)) := by
  induction ds generalizing d with
  | nil => intro j; exact ⟨d, rfl⟩
  | cons d2 ds ih =>
    intro j
    obtain ⟨k, hk⟩ := ih d2 (j + 1)
    refine ⟨k, ?_⟩
    show (NumOutConv.simple d j :: NumOutConv.simple d2 (j + 1) ::
        mkSimpleConvs ds (j + 1 + 1)).getLast?
      = some (NumOutConv.simple k (j + (d2 :: ds).length))
    rw [List.getLast?_cons_cons]
    have hidx : j + (d2 :: ds).length = j + 1 + ds.length := by
      simp only [List.length_cons]; omega
    rw [hidx]
    exact hk

/-- The row size of an all-simple plan with out-indices from 0 is its
length. -/
theorem numOutPlanSize_mkSimpleConvs (d : κ) (ds : List κ) :
    numOutPlanSize (mkSimpleConvs (d :: ds) 0) = Except.ok (ds.length + 1) := by
  obtain ⟨k, hk⟩ := mkSimpleConvs_getLast d ds 0
  unfold numOutPlanSize
  rw [hk]
  dsimp only
  rw [Nat.zero_add]

/-- Replaying an all-simple plan over resolving references succeeds and
preserves the row length. -/
theorem foldlM_numOutParamsStep_simple {κ : Type} (fetch : κ → Except ConvError Value) :
    ∀ (ds : List κ), (∀ k ∈ ds, ∃ v, fetch k = Except.ok v) →
    ∀ (j : Nat) (out : List Value),
      ∃ out', List.foldlM (numOutParamsStep fetch) out (mkSimpleConvs ds j)
          = Except.ok out' ∧ out'.length = out.length := by
  intro ds
  induction ds with
  | nil => intro _ j out; exact ⟨out, rfl, rfl⟩
  | cons d ds ih =>
    intro h j out
    obtain ⟨v, hv⟩ := h d (List.mem_cons_self _ _)
    obtain ⟨out', hout', hlen⟩ :=
      ih (fun k hk => h k (List.mem_cons_of_mem _ hk)) (j + 1) (out.set j v)
    refine ⟨out', ?_, ?_⟩
    · rw [mkSimpleConvs, List.foldlM_cons]
      have hstep : numOutParamsStep fetch out (NumOutConv.simple d j)
          = Except.ok (out.set j v) := by
        show (fetch d >>= fun v => Except.ok (out.set j v)) = Except.ok (out.set j v)
        rw [hv, exceptBind_ok]
      rw [hstep, exceptBind_ok, hout']
    · rw [hlen, List.length_set]

/-- A reference that resolves to a non-tuple resolves to a scalar. -/
theorem fetchScalar_sc {κ : Type} {fetch : κ → Except ConvError Value} {k : κ}
    (h : fetchScalar fetch k = true) : ∃ a, fetch k = Except.ok (Value.sc a) := by
  unfold fetchScalar at h
  cases hfk : fetch k with
  | error e => rw [hfk] at h; simp at h
  | ok v =>
    rw [hfk] at h
    cases v with
    | sc a => exact ⟨a, rfl⟩
    | tup vs => simp [Value.isTup] at h

/-- A scalar-valued reference takes the simple arm of a numeric-out
callback. -/
theorem numOutRegexReplace_sc {κ : Type} [DecidableEq κ] (expandTuples : Bool) (outFormat : String)
    (outStart : Nat) (fetch : κ → Except ConvError Value) (st : NumOutState κ)
    {k : κ} {a : Scalar} (hfk : fetch k = Except.ok (Value.sc a)) :
    numOutRegexReplace expandTuples outFormat outStart fetch st k =
      Except.ok (numOutSimple outFormat outStart k st) := by
  unfold numOutRegexReplace
  rw [hfk]
  cases expandTuples <;> rfl

/-- The simple arm maps the all-scalar scan state for `seen` to the one for
`pushSeen seen k`. -/
theorem numOutSimple_scalarScanState_snd {κ : Type} [DecidableEq κ] (outFormat : String) (outStart : Nat)
    (k : κ) (seen : List κ) :
    (numOutSimple outFormat outStart k
        (scalarScanState (numOutRepl outFormat outStart) seen)).2
      = scalarScanState (numOutRepl outFormat outStart) (pushSeen seen k) := by
  by_cases hmem : k ∈ seen
  · obtain ⟨pr, hpr⟩ := alistFind_mkSimpleCache_some (numOutRepl outFormat outStart) hmem 0
    unfold numOutSimple scalarScanState
    dsimp only
    rw [hpr]
    rw [pushSeen, if_pos hmem]
  · have hnone := alistFind_mkSimpleCache_none (numOutRepl outFormat outStart) hmem 0
    unfold numOutSimple scalarScanState
    dsimp only
    rw [hnone, pushSeen, if_neg hmem]
    rw [mkSimpleConvs_append, mkSimpleCache_append, List.length_append]
    simp [Nat.zero_add]

/-- An all-scalar scan records one simple conversion and one cache line per
distinct reference, in first-occurrence order. -/
theorem scalarScan_runSub {κ : Type} [DecidableEq κ] (outFormat : String) (outStart : Nat)
    (fetch : κ → Except ConvError Value) (keyOf : String → κ) :
    ∀ (toks : List Tok),
      (∀ nm ∈ paramNamesOf toks, fetchScalar fetch (keyOf nm) = true) →
      ∀ seen : List κ, ∃ s : String,
        runSub (fun st nm =>
            numOutRegexReplace true outFormat outStart fetch st (keyOf nm))
          (scalarScanState (numOutRepl outFormat outStart) seen) toks =
        Except.ok (s, scalarScanState (numOutRepl outFormat outStart)
          (List.foldl pushSeen seen ((paramNamesOf toks).map keyOf))) := by
  intro toks
  induction toks with
  | nil => intro _ seen; exact ⟨"", rfl⟩
  | cons t rest ih =>
    intro hsc seen
    cases t with
    | lit c =>
      obtain ⟨s, hs⟩ := ih (fun nm' hm => hsc nm' hm) seen
      refine ⟨String.singleton c ++ s, ?_⟩
      rw [runSub_lit, hs, exceptBind_ok]
      rfl
    | param nm =>
      have hF := hsc nm (List.mem_cons_self nm (paramNamesOf rest))
      obtain ⟨a, hfk⟩ := fetchScalar_sc hF
      obtain ⟨s, hs⟩ :=
        ih (fun nm' hm => hsc nm' (List.mem_cons_of_mem _ hm))
          (pushSeen seen (keyOf nm))
      refine ⟨(numOutSimple outFormat outStart (keyOf nm)
        (scalarScanState (numOutRepl outFormat outStart) seen)).1 ++ s, ?_⟩
      rw [runSub_param]
      rw [numOutRegexReplace_sc true outFormat outStart fetch _ hfk,
        exceptBind_ok, numOutSimple_scalarScanState_snd, hs, exceptBind_ok]
      rfl

/-- A numeric-out conversion over all-scalar values succeeds with one output
slot per distinct reference (shared core of both numeric-out converters). -/
theorem numOut_scalar_convert_core {κ : Type} [DecidableEq κ] (outFormat : String) (outStart : Nat)
    (fetch : κ → Except ConvError Value) (keyOf : String → κ) (toks : List Tok)
    (h1 : ∀ nm ∈ paramNamesOf toks, fetchScalar fetch (keyOf nm) = true)
    (h2 : paramNamesOf toks ≠ []) :
    ∃ s ps,
      (runSub (fun st nm =>
          numOutRegexReplace true outFormat outStart fetch st (keyOf nm))
        (NumOutState.init κ) toks >>= fun scanned =>
        numOutConvertParams fetch scanned.2.convs >>= fun outParams =>
          Except.ok (scanned.1, outParams))
        = Except.ok (s, ps) ∧
      ps.length = (firstOccurrences ((paramNamesOf toks).map keyOf)).length := by
  obtain ⟨s, hs⟩ := scalarScan_runSub outFormat outStart fetch keyOf toks h1 []
  cases hn : paramNamesOf toks with
  | nil => exact absurd hn h2
  | cons d ds =>
    have hne : firstOccurrences ((paramNamesOf toks).map keyOf) ≠ [] := by
      rw [hn, List.map_cons]
      exact firstOccurrences_cons_ne_nil (keyOf d) (ds.map keyOf)
    cases hseen : firstOccurrences ((paramNamesOf toks).map keyOf) with
    | nil => exact absurd hseen hne
    | cons e es =>
      have hall : ∀ k ∈ e :: es, ∃ v, fetch k = Except.ok v := by
        intro k hk
        rw [← hseen] at hk
        have hk2 : k ∈ (paramNamesOf toks).map keyOf := by
          rcases (mem_foldl_pushSeen k ((paramNamesOf toks).map keyOf) []).mp hk with h0 | h0
          · cases h0
          · exact h0
        obtain ⟨nm, hnm, hknm⟩ := List.mem_map.mp hk2
        obtain ⟨a, hfa⟩ := fetchScalar_sc (h1 nm hnm)
        rw [← hknm]
        exact ⟨Value.sc a, hfa⟩
      obtain ⟨out', hfold, hflen⟩ :=
        foldlM_numOutParamsStep_simple fetch (e :: es) hall 0
          (List.replicate (es.length + 1) Value.null)
      have hs2 : runSub (fun st nm =>
            numOutRegexReplace true outFormat outStart fetch st (keyOf nm))
          (NumOutState.init κ) toks =
          Except.ok (s, scalarScanState (numOutRepl outFormat outStart)
            (firstOccurrences ((paramNamesOf toks).map keyOf))) := hs
      refine ⟨s, out', ?_, ?_⟩
      · rw [hs2, exceptBind_ok, hseen]
        have hcp : numOutConvertParams fetch
            (scalarScanState (numOutRepl outFormat outStart) (e :: es)).convs
            = Except.ok out' := by
          show (numOutPlanSize (mkSimpleConvs (e :: es) 0) >>= fun size =>
            List.foldlM (numOutParamsStep fetch)
              (List.replicate size Value.null) (mkSimpleConvs (e :: es) 0))
            = Except.ok out'
          rw [numOutPlanSize_mkSimpleConvs, exceptBind_ok, hfold]
        rw [hcp, exceptBind_ok]
      · rw [← hn, hseen, hflen, List.length_replicate, List.length_cons]

/-! ## The claims -/

/-- C4: converting the query `WHERE id = :id OR alt = :id` from the named
in-style to the qmark ordinal out-style (out-format `?`, tuple expansion
enabled as it is by default for an ordinal out-style) with parameters
`{id: 5}` yields the query `WHERE id = ? OR alt = ?` and the output
parameter list `[5, 5]`: one output marker and one duplicated value per
occurrence of the repeated reference. -/
theorem namedToOrdinal_repeated_ref_example :
    NamedToOrdinalConverter.convert true "?" "WHERE id = :id OR alt = :id"
      [("id", Value.int 5)] =
    Except.ok ("WHERE id = ? OR alt = ?", [Value.int 5, Value.int 5]) := rfl

/-- C5: with tuple expansion enabled, converting `IN :names` (named
in-style, qmark ordinal out-style) where `names` is the non-empty tuple
`("A","B","C")` yields `IN (?,?,?)` — one marker per element, wrapped in
parentheses and comma-joined — and splices the three element values into the
output parameter collection at that position, in element order (second
conjunct: between the surrounding parameters `:a` and `:z`). -/
theorem namedToOrdinal_tuple_expansion_example :
    (NamedToOrdinalConverter.convert true "?" "IN :names"
        [("names", Value.tup [Scalar.str "A", Scalar.str "B", Scalar.str "C"])] =
      Except.ok ("IN (?,?,?)", [Value.str "A", Value.str "B", Value.str "C"]))
    ∧ (NamedToOrdinalConverter.convert true "?"
        "WHERE a = :a AND x IN :names AND z = :z"
        [("a", Value.int 1),
          ("names", Value.tup [Scalar.str "A", Scalar.str "B", Scalar.str "C"]),
          ("z", Value.int 9)] =
      Except.ok ("WHERE a = ? AND x IN (?,?,?) AND z = ?",
        [Value.int 1, Value.str "A", Value.str "B", Value.str "C",
          Value.int 9])) :=
  ⟨rfl, rfl⟩

/-- C3 counterexample: for the ordinal out-style conversion (expansion
enabled), the query `WHERE id = :id OR alt = :id` — one distinct reference,
two occurrences — produces an output parameter collection of size 2, the
number of occurrences, not the number of distinct references: with an
ordinal out-style a repeated reference does not reuse a previously assigned
output slot. -/
theorem namedToOrdinal_repeated_ref_not_distinct_count :
    (NamedToOrdinalConverter.convert true "?" "WHERE id = :id OR alt = :id"
        [("id", Value.int 5)]).map (fun r => r.2.length) = Except.ok 2
    ∧ (firstOccurrences
        (paramNamesOf (tokenizeNamed "WHERE id = :id OR alt = :id".data))).length = 1
    ∧ (2 : Nat) ≠ 1 :=
  ⟨rfl, rfl, by decide⟩

/-- C6: in the numeric-out and ordinal-out named converters with tuple
expansion enabled, a parameter reference whose value is an empty tuple is
replaced by the literal text `(NULL)` — which is not `()` — and leaves the
conversion plan unchanged, so it contributes no slot to the output parameter
collection. -/
theorem emptyTuple_expands_to_NULL_no_slot (outFormatN outFormatO : String)
    (outStart : Nat) (inParams : Params) (st : NumOutState String)
    (convs : List OrdConv) (nm : String)
    (h : alistFind nm inParams = some (Value.tup [])) :
    (NamedToNumericConverter.regexReplace true outFormatN outStart inParams st nm =
      Except.ok ("(NULL)", st))
    ∧ (NamedToOrdinalConverter.regexReplace true outFormatO inParams convs nm =
      Except.ok ("(NULL)", convs))
    ∧ "(NULL)" ≠ "()" := by
  refine ⟨?_, ?_, by decide⟩
  · simp only [NamedToNumericConverter.regexReplace, numOutRegexReplace, getParam, h]
    rfl
  · simp only [NamedToOrdinalConverter.regexReplace, getParam, h]
    rfl

/-- C6 witness: the theorem applied at a concrete parameter set and scan
state. -/
theorem emptyTuple_expands_to_NULL_no_slot_witness :
    (NamedToNumericConverter.regexReplace true ":{param}" 1
        [("names", Value.tup [])] (NumOutState.init String) "names" =
      Except.ok ("(NULL)", NumOutState.init String))
    ∧ (NamedToOrdinalConverter.regexReplace true "?"
        [("names", Value.tup [])] [] "names" =
      Except.ok ("(NULL)", []))
    ∧ "(NULL)" ≠ "()" :=
  emptyTuple_expands_to_NULL_no_slot ":{param}" "?" 1
    [("names", Value.tup [])] (NumOutState.init String) [] "names" rfl

/-- C1: constructing an `SQLParams` instance fails exactly when a requested
style name is not in the registry: with both names registered, construction
succeeds for every valid combination of the `escape_char`, `expand_tuples`,
`strip_comments` (and `allow_out_quotes`) options; with the in-style name
unregistered it fails immediately with UnknownStyle naming it, and likewise
for the out-style name. -/
theorem sqlParamsInit_ok_iff_styles_registered (inN outN : String)
    (esc : EscapeArg) (exp : Option Bool) (strip : StripArg) (allow : Bool) :
    ((alistFind inN STYLES).isSome = true → (alistFind outN STYLES).isSome = true →
      (sqlParamsInit inN outN esc exp strip allow).isOk = true)
    ∧ (alistFind inN STYLES = none →
      sqlParamsInit inN outN esc exp strip allow =
        Except.error (InitError.unknownStyle inN))
    ∧ (∀ o, alistFind inN STYLES = some o → alistFind outN STYLES = none →
      sqlParamsInit inN outN esc exp strip allow =
        Except.error (InitError.unknownStyle outN)) := by
  refine ⟨?_, ?_, ?_⟩
  · intro h1 h2
    obtain ⟨a, ha⟩ := Option.isSome_iff_exists.mp h1
    obtain ⟨b, hb⟩ := Option.isSome_iff_exists.mp h2
    simp only [sqlParamsInit, ha, hb]
    rfl
  · intro h
    simp only [sqlParamsInit, h]
    rfl
  · intro o ho h
    simp only [sqlParamsInit, ho, h]
    rfl

/-- C1 witness: a registered pair constructs; an unregistered in-style name
fails with UnknownStyle. -/
theorem sqlParamsInit_ok_iff_styles_registered_witness :
    ((sqlParamsInit "named" "qmark" EscapeArg.none none StripArg.none false).isOk = true)
    ∧ (sqlParamsInit "nope" "qmark" (EscapeArg.bool true) (some true)
        (StripArg.bool true) true =
      Except.error (InitError.unknownStyle "nope")) :=
  ⟨(sqlParamsInit_ok_iff_styles_registered "named" "qmark" EscapeArg.none none
      StripArg.none false).1 rfl rfl,
    (sqlParamsInit_ok_iff_styles_registered "nope" "qmark" (EscapeArg.bool true)
      (some true) (StripArg.bool true) true).2.1 rfl⟩

/-- C2: the style registry contains at least the named styles `named`
(colon-prefixed identifier), `named_dollar` (dollar-prefixed identifier)
and `pyformat` (percent-paren-s), the dialect variant `named_oracle`
(case-insensitive matching folded to uppercase unless the identifier is
quoted, via its `param_quotes` flag and `_unquote_oracle_param`) and the
`@name` dialect variant `named_sqlserver`; the numeric styles `numeric`
(colon-digit) and `numeric_dollar` (dollar-digit), both starting at 1; and
the ordinal styles `format` (`%s`) and `qmark` (`?`). -/
theorem STYLES_registry_contents :
    (∃ s, alistFind "named" STYLES = some s ∧ s.kind = StyleKind.named ∧
      s.param_regex = "(?<!:):(?P<param>[A-Za-z_]\\w*)" ∧ s.out_format = ":{param}")
    ∧ (∃ s, alistFind "named_dollar" STYLES = some s ∧ s.kind = StyleKind.named ∧
      s.param_regex = "(?<!\\$)\\$(?P<param>[A-Za-z_]\\w*)" ∧ s.out_format = "${param}")
    ∧ (∃ s, alistFind "pyformat" STYLES = some s ∧ s.kind = StyleKind.named ∧
      s.param_regex = "(?<!%)%\\((?P<param>[A-Za-z_]\\w*)\\)s" ∧
      s.out_format = "%({param})s")
    ∧ (∃ s, alistFind "named_oracle" STYLES = some s ∧ s.kind = StyleKind.named ∧
      s.param_quotes = true)
    ∧ (unquoteOracleParam "beta" = Except.ok "BETA"
      ∧ unquoteOracleParam (String.mk ['"', 'b', 'e', 't', 'a', '"']) =
        Except.ok "beta")
    ∧ (∃ s, alistFind "named_sqlserver" STYLES = some s ∧ s.kind = StyleKind.named ∧
      s.out_format = "@{param}")
    ∧ (∃ s, alistFind "numeric" STYLES = some s ∧ s.kind = StyleKind.numeric ∧
      s.param_regex = "(?<!:):(?P<param>\\d+)" ∧ s.start = 1)
    ∧ (∃ s, alistFind "numeric_dollar" STYLES = some s ∧ s.kind = StyleKind.numeric ∧
      s.param_regex = "(?<!\\$)\\$(?P<param>\\d+)" ∧ s.start = 1)
    ∧ (∃ s, alistFind "format" STYLES = some s ∧ s.kind = StyleKind.ordinal ∧
      s.out_format = "%s")
    ∧ (∃ s, alistFind "qmark" STYLES = some s ∧ s.kind = StyleKind.ordinal ∧
      s.out_format = "?") :=
  ⟨⟨_, rfl, rfl, rfl, rfl⟩, ⟨_, rfl, rfl, rfl, rfl⟩, ⟨_, rfl, rfl, rfl, rfl⟩,
    ⟨_, rfl, rfl, rfl⟩, ⟨by decide, by decide⟩, ⟨_, rfl, rfl, rfl⟩,
    ⟨_, rfl, rfl, rfl, rfl⟩, ⟨_, rfl, rfl, rfl, rfl⟩, ⟨_, rfl, rfl, rfl⟩,
    ⟨_, rfl, rfl, rfl⟩⟩

/-- C9: the byte-string handling of `format`: decoding is by the fixed
single-byte-per-character latin1 encoding, re-encoding it reproduces any
byte string exactly (all 256 byte values round-trip losslessly), and the
query comes back as the type it was supplied as — bytes in, bytes out;
string in, string out — for every converter and every successful call. -/
theorem bytes_roundtrip_and_type_preservation {Out : Type} :
    (∀ bs : List (Fin 256), latin1Encode (latin1Decode bs) = Except.ok bs)
    ∧ (∀ (conv : String → Except ConvError (String × Out)) (bs : List (Fin 256))
        (r : SqlStr × Out), SQLParamsFormat conv (SqlStr.bytes bs) = Except.ok r →
        r.1.isBytes = true)
    ∧ (∀ (conv : String → Except ConvError (String × Out)) (s : String)
        (r : SqlStr × Out), SQLParamsFormat conv (SqlStr.str s) = Except.ok r →
        r.1.isBytes = false) := by
  refine ⟨latin1Encode_latin1Decode, ?_, ?_⟩
  · intro conv bs r h
    simp only [SQLParamsFormat] at h
    cases hc : conv (latin1Decode bs) with
    | error e =>
      rw [hc, exceptBind_error] at h
      exact Except.noConfusion h
    | ok pr =>
      rw [hc, exceptBind_ok] at h
      cases he : latin1Encode pr.1 with
      | error e =>
        rw [he, exceptBind_error] at h
        exact Except.noConfusion h
      | ok outBytes =>
        rw [he, exceptBind_ok] at h
        cases Except.ok.inj h
        rfl
  · intro conv s r h
    simp only [SQLParamsFormat] at h
    cases hc : conv s with
    | error e =>
      rw [hc, exceptBind_error] at h
      exact Except.noConfusion h
    | ok pr =>
      rw [hc, exceptBind_ok] at h
      cases Except.ok.inj h
      rfl

/-- C9 witness: the round-trip on the list of all 256 byte values, and the
type-preservation parts applied to a concrete conversion at a concrete
byte-string and string query. -/
theorem bytes_roundtrip_and_type_preservation_witness :
    (latin1Encode (latin1Decode (List.finRange 256)) =
      Except.ok (List.finRange 256))
    ∧ (SqlStr.bytes [(65 : Fin 256)], ([] : List Value)).1.isBytes = true
    ∧ (SqlStr.str "A", ([] : List Value)).1.isBytes = false :=
  ⟨(@bytes_roundtrip_and_type_preservation (List Value)).1 (List.finRange 256),
    (@bytes_roundtrip_and_type_preservation (List Value)).2.1
      (fun s => Except.ok (s, ([] : List Value))) [(65 : Fin 256)]
      (SqlStr.bytes [(65 : Fin 256)], ([] : List Value)) rfl,
    (@bytes_roundtrip_and_type_preservation (List Value)).2.2
      (fun s => Except.ok (s, ([] : List Value))) "A"
      (SqlStr.str "A", ([] : List Value)) rfl⟩

/-- C8: replaying the plan against one parameter set of a batch, the row
succeeds exactly when every Expanded entry's value is a tuple of exactly the
recorded length (and every reference resolves); when the first failing entry
is an Expanded entry whose value is a non-tuple the row fails with
TypeMismatch (`TypeError`), and when it is a tuple of a different length the
row fails with LengthMismatch (`ValueError`) — for both the
NamedToNumericConverter row and the NamedToOrdinalConverter row.  A failing
row is an `Except.error`, and `exceptMapM` (the per-set loop) propagates it
(`exceptMapM_not_ok_of_mem_error`), so no output is produced for the
call. -/
theorem convertManyRow_validates_expanded_entries :
    (∀ (p : Params) (convs : List (NumOutConv String)) (size : Nat),
      (numOutConvertManyRow (getParam p) convs size).isOk =
        convs.all (numOutStepOk (getParam p)))
    ∧ (∀ (p : Params) (pre post : List (NumOutConv String)) (nm : String)
        (idxs : List Nat) (size : Nat) (v : Value),
        (∀ e ∈ pre, numOutStepOk (getParam p) e = true) →
        getParam p nm = Except.ok v → v.isTup = false →
        numOutConvertManyRow (getParam p)
            (pre ++ NumOutConv.expand nm idxs :: post) size =
          Except.error ConvError.typeError)
    ∧ (∀ (p : Params) (pre post : List (NumOutConv String)) (nm : String)
        (idxs : List Nat) (size : Nat) (vs : List Scalar),
        (∀ e ∈ pre, numOutStepOk (getParam p) e = true) →
        getParam p nm = Except.ok (Value.tup vs) → vs.length ≠ idxs.length →
        numOutConvertManyRow (getParam p)
            (pre ++ NumOutConv.expand nm idxs :: post) size =
          Except.error ConvError.valueError)
    ∧ (∀ (p : Params) (convs : List OrdConv),
      (NamedToOrdinalConverter.convertManyRow convs p).isOk =
        convs.all (ordStepOk p))
    ∧ (∀ (p : Params) (pre post : List OrdConv) (nm : String) (cnt : Nat)
        (v : Value),
        (∀ e ∈ pre, ordStepOk p e = true) →
        getParam p nm = Except.ok v → v.isTup = false →
        NamedToOrdinalConverter.convertManyRow
            (pre ++ OrdConv.expand nm cnt :: post) p =
          Except.error ConvError.typeError)
    ∧ (∀ (p : Params) (pre post : List OrdConv) (nm : String) (cnt : Nat)
        (vs : List Scalar),
        (∀ e ∈ pre, ordStepOk p e = true) →
        getParam p nm = Except.ok (Value.tup vs) → vs.length ≠ cnt →
        NamedToOrdinalConverter.convertManyRow
            (pre ++ OrdConv.expand nm cnt :: post) p =
          Except.error ConvError.valueError) := by
  refine ⟨?_, ?_, ?_, ?_, ?_, ?_⟩
  · intro p convs size
    exact numOutManyRow_fold_isOk (getParam p) convs _
  · intro p pre post nm idxs size v hpre hv htup
    rw [numOutConvertManyRow]
    obtain ⟨out', h'⟩ := numOutManyRow_fold_append_ok (getParam p) hpre
      (NumOutConv.expand nm idxs :: post) (List.replicate size Value.null)
    rw [h', List.foldlM_cons,
      numOutManyRowStep_expand_nontup (getParam p) hv htup out' idxs,
      exceptBind_error]
  · intro p pre post nm idxs size vs hpre hv hl
    rw [numOutConvertManyRow]
    obtain ⟨out', h'⟩ := numOutManyRow_fold_append_ok (getParam p) hpre
      (NumOutConv.expand nm idxs :: post) (List.replicate size Value.null)
    rw [h', List.foldlM_cons,
      numOutManyRowStep_expand_badlen (getParam p) hv hl out',
      exceptBind_error]
  · intro p convs
    exact NamedToOrdinalConverter.manyRow_fold_isOk p convs _
  · intro p pre post nm cnt v hpre hv htup
    rw [NamedToOrdinalConverter.convertManyRow]
    obtain ⟨out', h'⟩ := NamedToOrdinalConverter.manyRow_fold_append_ok hpre
      (OrdConv.expand nm cnt :: post) []
    rw [h', List.foldlM_cons,
      NamedToOrdinalConverter.manyRowStep_expand_nontup hv htup out' cnt,
      exceptBind_error]
  · intro p pre post nm cnt vs hpre hv hl
    rw [NamedToOrdinalConverter.convertManyRow]
    obtain ⟨out', h'⟩ := NamedToOrdinalConverter.manyRow_fold_append_ok hpre
      (OrdConv.expand nm cnt :: post) []
    rw [h', List.foldlM_cons,
      NamedToOrdinalConverter.manyRowStep_expand_badlen hv hl out',
      exceptBind_error]

/-- C8 witness: the theorem applied to a concrete plan
`[simple x -> 0, expand t -> [1,2]]` and single parameter sets in which `t`
is a non-tuple, respectively a 1-tuple. -/
theorem convertManyRow_validates_expanded_entries_witness :
    (numOutConvertManyRow (getParam [("x", Value.int 1), ("t", Value.int 2)])
        [NumOutConv.simple "x" 0, NumOutConv.expand "t" [1, 2]] 3 =
      Except.error ConvError.typeError)
    ∧ (numOutConvertManyRow (getParam [("x", Value.int 1),
          ("t", Value.tup [Scalar.int 7])])
        [NumOutConv.simple "x" 0, NumOutConv.expand "t" [1, 2]] 3 =
      Except.error ConvError.valueError)
    ∧ (NamedToOrdinalConverter.convertManyRow
        [OrdConv.simple "x", OrdConv.expand "t" 2]
        [("x", Value.int 1), ("t", Value.int 2)] =
      Except.error ConvError.typeError)
    ∧ (NamedToOrdinalConverter.convertManyRow
        [OrdConv.simple "x", OrdConv.expand "t" 2]
        [("x", Value.int 1), ("t", Value.tup [Scalar.int 7])] =
      Except.error ConvError.valueError) := by
  refine ⟨?_, ?_, ?_, ?_⟩
  · exact convertManyRow_validates_expanded_entries.2.1
      [("x", Value.int 1), ("t", Value.int 2)] [NumOutConv.simple "x" 0] []
      "t" [1, 2] 3 (Value.int 2) (by decide) rfl rfl
  · exact convertManyRow_validates_expanded_entries.2.2.1
      [("x", Value.int 1), ("t", Value.tup [Scalar.int 7])]
      [NumOutConv.simple "x" 0] [] "t" [1, 2] 3 [Scalar.int 7]
      (by decide) rfl (by decide)
  · exact convertManyRow_validates_expanded_entries.2.2.2.2.1
      [("x", Value.int 1), ("t", Value.int 2)] [OrdConv.simple "x"] []
      "t" 2 (Value.int 2) (by decide) rfl rfl
  · exact convertManyRow_validates_expanded_entries.2.2.2.2.2
      [("x", Value.int 1), ("t", Value.tup [Scalar.int 7])] [OrdConv.simple "x"] []
      "t" 2 [Scalar.int 7] (by decide) rfl (by decide)

/-- C10: in batch conversion with expansion enabled, when the first
parameter set's value for reference `a` is the empty tuple, the scan records
no plan entry naming `a`; consequently the entire batch result is unchanged
under arbitrary replacement of the value of `a` in every later parameter
set (even by a non-tuple or a tuple of any length): the value of `a` is
never validated — no LengthMismatch or TypeMismatch can arise from it — and
never reaches any output parameter collection. -/
theorem emptyTuple_first_set_not_validated_later
    (outFormat : String) (outStart : Nat) (sql : String) (a : String)
    (first : Params) (rest rest' : List Params)
    (ha : alistFind a first = some (Value.tup []))
    (hAgree : List.Forall₂
      (fun p q => ∀ nm, nm ≠ a → alistFind nm p = alistFind nm q) rest rest') :
    (∀ outSql st,
      runSub (NamedToNumericConverter.regexReplace true outFormat outStart first)
          (NumOutState.init String) (tokenizeNamed sql.data) =
        Except.ok (outSql, st) →
      ∀ e ∈ st.convs, NumOutConv.key e ≠ a)
    ∧ NamedToNumericConverter.convertMany true outFormat outStart sql
        (first :: rest) =
      NamedToNumericConverter.convertMany true outFormat outStart sql
        (first :: rest') := by
  have hfa : getParam first a = Except.ok (Value.tup []) := by
    rw [getParam, ha]
  have part1 : ∀ outSql st,
      runSub (NamedToNumericConverter.regexReplace true outFormat outStart first)
          (NumOutState.init String) (tokenizeNamed sql.data) =
        Except.ok (outSql, st) →
      ∀ e ∈ st.convs, NumOutConv.key e ≠ a := by
    intro outSql st h
    exact runSub_preserves (fun st0 => ∀ e ∈ st0.convs, NumOutConv.key e ≠ a)
      (NamedToNumericConverter.regexReplace true outFormat outStart first)
      (fun st0 nm r st0' hrep hP =>
        numOutRegexReplace_no_entry_for_empty outFormat outStart
          (getParam first) a hfa st0 nm r st0' hrep hP)
      (tokenizeNamed sql.data) (NumOutState.init String) outSql st h
      (by intro e he; cases he)
  refine ⟨part1, ?_⟩
  rw [NamedToNumericConverter.convertMany, NamedToNumericConverter.convertMany]
  cases hscan : runSub
      (NamedToNumericConverter.regexReplace true outFormat outStart first)
      (NumOutState.init String) (tokenizeNamed sql.data) with
  | error er => rw [exceptBind_error, exceptBind_error]
  | ok scanned =>
    rw [exceptBind_ok, exceptBind_ok]
    have hkeys : ∀ e ∈ scanned.2.convs, NumOutConv.key e ≠ a :=
      part1 scanned.1 scanned.2 (by rw [hscan])
    have hmany : numOutConvertManyParams getParam (first :: rest) scanned.2.convs =
        numOutConvertManyParams getParam (first :: rest') scanned.2.convs := by
      rw [numOutConvertManyParams, numOutConvertManyParams]
      cases hsz : numOutPlanSize scanned.2.convs with
      | error er => rw [exceptBind_error, exceptBind_error]
      | ok size =>
        rw [exceptBind_ok, exceptBind_ok]
        have hrows : List.Forall₂
            (fun p q => numOutConvertManyRow (getParam p) scanned.2.convs size =
              numOutConvertManyRow (getParam q) scanned.2.convs size)
            (first :: rest) (first :: rest') := by
          refine List.Forall₂.cons rfl (hAgree.imp ?_)
          intro p q hpq
          rw [numOutConvertManyRow, numOutConvertManyRow]
          refine numOutManyRow_fold_congr (getParam p) (getParam q)
            scanned.2.convs ?_ _
          intro e he
          have hne := hkeys e he
          rw [getParam, getParam, hpq (NumOutConv.key e) hne]
        exact exceptMapM_congr_forall2 _ _ hrows
    rw [hmany]



/-- C10 witness: with `a` the empty tuple in the first set, a batch whose
second set maps `a` to the integer 7 converts identically to one whose
second set maps `a` to a 2-tuple. -/
theorem emptyTuple_first_set_not_validated_later_witness :
    NamedToNumericConverter.convertMany true ":{param}" 1 ":a :b"
        [[("a", Value.tup []), ("b", Value.int 1)],
          [("a", Value.int 7), ("b", Value.int 2)]] =
      NamedToNumericConverter.convertMany true ":{param}" 1 ":a :b"
        [[("a", Value.tup []), ("b", Value.int 1)],
          [("a", Value.tup [Scalar.int 1, Scalar.int 2]), ("b", Value.int 2)]] :=
  (emptyTuple_first_set_not_validated_later ":{param}" 1 ":a :b" "a"
    [("a", Value.tup []), ("b", Value.int 1)]
    [[("a", Value.int 7), ("b", Value.int 2)]]
    [[("a", Value.tup [Scalar.int 1, Scalar.int 2]), ("b", Value.int 2)]]
    rfl
    (List.Forall₂.cons
      (by
        intro nm hnm
        have hne : ("a" = nm) = False := eq_false (fun hh => hnm hh.symm)
        simp only [alistFind, hne, if_false])
      List.Forall₂.nil)).2

/-- C7: a batch conversion over a non-empty sequence of parameter sets
scans the query once with the first set (definitional in `convertMany`) and
agrees with single-shot conversion: when `convert_many` succeeds, it yields
one output collection per input set, and — provided every set has the same
shape as the first (references resolve in both or neither, and
collection-valued references have equal collection lengths) — the i-th
output collection together with the common rewritten query is exactly what
`convert` produces independently on the i-th set (in particular, for i = 0,
the rewritten query is the one `convert` produces on the first set). -/
theorem namedToNumeric_convertMany_agrees_with_convert
    (expandTuples : Bool) (outFormat : String) (outStart : Nat) (sql : String)
    (first : Params) (rest : List Params) (outSql : String)
    (outs : List (List Value))
    (hShape : ∀ p ∈ rest, shapeEq first p = true)
    (hOk : NamedToNumericConverter.convertMany expandTuples outFormat outStart
      sql (first :: rest) = Except.ok (outSql, outs)) :
    outs.length = rest.length + 1
    ∧ ∀ (i : Nat) (p : Params), (first :: rest)[i]? = some p →
        ∃ row, outs[i]? = some row ∧
          NamedToNumericConverter.convert expandTuples outFormat outStart sql p =
            Except.ok (outSql, row) := by
  rw [NamedToNumericConverter.convertMany] at hOk
  cases hscan : runSub
      (NamedToNumericConverter.regexReplace expandTuples outFormat outStart first)
      (NumOutState.init String) (tokenizeNamed sql.data) with
  | error er => rw [hscan, exceptBind_error] at hOk; exact Except.noConfusion hOk
  | ok scanned =>
    rw [hscan, exceptBind_ok] at hOk
    cases hmany : numOutConvertManyParams getParam (first :: rest)
        scanned.2.convs with
    | error er => rw [hmany, exceptBind_error] at hOk; exact Except.noConfusion hOk
    | ok manyOuts =>
      rw [hmany, exceptBind_ok] at hOk
      cases Except.ok.inj hOk
      rw [numOutConvertManyParams] at hmany
      cases hsz : numOutPlanSize scanned.2.convs with
      | error er =>
        rw [hsz, exceptBind_error] at hmany
        exact Except.noConfusion hmany
      | ok size =>
        rw [hsz, exceptBind_ok] at hmany
        have hconfFirst : ∀ e ∈ scanned.2.convs,
            numOutStepOk (getParam first) e = true := by
          refine runSub_preserves
            (fun st0 => ∀ e ∈ st0.convs, numOutStepOk (getParam first) e = true)
            (NamedToNumericConverter.regexReplace expandTuples outFormat outStart
              first)
            ?_ (tokenizeNamed sql.data) (NumOutState.init String)
            scanned.1 scanned.2 (by rw [hscan]) ?_
          · intro st0 nm r st0' hrep hP
            exact numOutRegexReplace_preserves_stepOk expandTuples outFormat
              outStart (getParam first) st0 nm r st0' hrep hP
          · intro e he
            cases he
        refine ⟨by rw [exceptMapM_ok_length _ hmany]; rfl, ?_⟩
        intro i p hp
        obtain ⟨row, hrow, hfrow⟩ := exceptMapM_ok_get _ hmany hp
        refine ⟨row, hrow, ?_⟩
        have hshape_p : shapeEq first p = true := by
          cases i with
          | zero =>
            rw [List.getElem?_cons_zero] at hp
            cases Option.some.inj hp
            exact shapeEq_refl first
          | succ j =>
            rw [List.getElem?_cons_succ] at hp
            exact hShape p (List.getElem?_mem hp)
        have hconf_p : ∀ e ∈ scanned.2.convs,
            numOutStepOk (getParam p) e = true :=
          fun e he => numOutStepOk_of_shapeEq hshape_p (hconfFirst e he)
        have hfe : NamedToNumericConverter.regexReplace expandTuples outFormat
            outStart p = NamedToNumericConverter.regexReplace expandTuples
            outFormat outStart first := by
          funext st nm
          refine numOutRegexReplace_congr_shape expandTuples outFormat outStart
            (getParam p) (getParam first) ?_ st nm
          intro k
          rcases getParam_shape hshape_p k with ⟨h1, h2⟩ | ⟨v, w, h1, h2, hvw⟩
          · exact Or.inl ⟨ConvError.keyError k, h2, h1⟩
          · exact Or.inr ⟨w, v, h2, h1, hvw.symm⟩
        rw [NamedToNumericConverter.convert, hfe, hscan, exceptBind_ok,
          numOutConvertParams, hsz, exceptBind_ok,
          ← numOutManyRow_fold_eq_params (getParam p) scanned.2.convs hconf_p]
        rw [numOutConvertManyRow] at hfrow
        rw [hfrow, exceptBind_ok]



/-- C7 witness: a two-set batch with an expanded reference of uniform
length 2; the second output collection matches the independent single-shot
conversion of the second set. -/
theorem namedToNumeric_convertMany_agrees_with_convert_witness :
    ([[Value.int 1, Value.int 10, Value.int 20],
      [Value.int 5, Value.int 30, Value.int 40]] : List (List Value)).length = 2
    ∧ ∃ row, ([[Value.int 1, Value.int 10, Value.int 20],
        [Value.int 5, Value.int 30, Value.int 40]] : List (List Value))[1]? =
          some row ∧
      NamedToNumericConverter.convert true ":{param}" 1
          "x = :a AND y IN :bs AND z = :a"
          [("a", Value.int 5),
            ("bs", Value.tup [Scalar.int 30, Scalar.int 40])] =
        Except.ok ("x = :1 AND y IN (:2,:3) AND z = :1", row) := by
  have h := namedToNumeric_convertMany_agrees_with_convert true ":{param}" 1
    "x = :a AND y IN :bs AND z = :a"
    [("a", Value.int 1), ("bs", Value.tup [Scalar.int 10, Scalar.int 20])]
    [[("a", Value.int 5), ("bs", Value.tup [Scalar.int 30, Scalar.int 40])]]
    "x = :1 AND y IN (:2,:3) AND z = :1"
    [[Value.int 1, Value.int 10, Value.int 20],
      [Value.int 5, Value.int 30, Value.int 40]]
    (by decide) (by rfl)
  exact ⟨h.1, h.2 1
    [("a", Value.int 5), ("bs", Value.tup [Scalar.int 30, Scalar.int 40])] rfl⟩


/-- C3 (amended): for conversions to numeric out-styles
(`NamedToNumericConverter` and `NumericToNumericConverter`) with tuple
expansion enabled, resolving the same in-reference a second time reuses the
out-slot the `out_lookup` cache assigned at its first occurrence: on any
query whose referenced values are all non-tuples and which contains at
least one reference, the conversion succeeds and the output parameter
collection's size equals the number of distinct in-references (not the
number of occurrences). -/
theorem numericOut_dedups_repeated_refs
    (outFormat : String) (outStart : Nat) (sql : String) :
    (∀ params : Params,
      (∀ nm ∈ paramNamesOf (tokenizeNamed sql.data),
        fetchScalar (getParam params) nm = true) →
      paramNamesOf (tokenizeNamed sql.data) ≠ [] →
      ∃ s ps, NamedToNumericConverter.convert true outFormat outStart sql params
          = Except.ok (s, ps) ∧
        ps.length
          = (firstOccurrences (paramNamesOf (tokenizeNamed sql.data))).length) ∧
    (∀ (inStart : Nat) (params : List Value),
      (∀ nm ∈ paramNamesOf (tokenizeNumeric sql.data),
        fetchScalar (pyIndex params)
          (NumericToNumericConverter.inIndexOf inStart nm) = true) →
      paramNamesOf (tokenizeNumeric sql.data) ≠ [] →
      ∃ s ps, NumericToNumericConverter.convert true outFormat inStart outStart
          sql params = Except.ok (s, ps) ∧
        ps.length
          = (firstOccurrences ((paramNamesOf (tokenizeNumeric sql.data)).map
              (NumericToNumericConverter.inIndexOf inStart))).length) := by
  constructor
  · intro params h1 h2
    obtain ⟨s, ps, hconv, hlen⟩ := numOut_scalar_convert_core outFormat outStart
      (getParam params) (fun nm => nm) (tokenizeNamed sql.data) h1 h2
    refine ⟨s, ps, hconv, ?_⟩
    rw [hlen]
    rw [show (paramNamesOf (tokenizeNamed sql.data)).map (fun nm => nm)
      = paramNamesOf (tokenizeNamed sql.data) from List.map_id' _]
  · intro inStart params h1 h2
    obtain ⟨s, ps, hconv, hlen⟩ := numOut_scalar_convert_core outFormat outStart
      (pyIndex params) (NumericToNumericConverter.inIndexOf inStart)
      (tokenizeNumeric sql.data) h1 h2
    exact ⟨s, ps, hconv, hlen⟩

/-- Witness for C3: `WHERE id = :id OR alt = :id` (named, two occurrences,
one distinct reference) and `x = :2 AND y = :1 OR z = :2` (numeric, three
occurrences, two distinct references). -/
theorem numericOut_dedups_repeated_refs_witness :
    (∃ s ps, NamedToNumericConverter.convert true "${param}" 1
        "WHERE id = :id OR alt = :id" [("id", Value.int 5)]
        = Except.ok (s, ps) ∧
      ps.length = (firstOccurrences (paramNamesOf
        (tokenizeNamed ("WHERE id = :id OR alt = :id").data))).length) ∧
    (∃ s ps, NumericToNumericConverter.convert true "${param}" 1 1
        "x = :2 AND y = :1 OR z = :2" [Value.int 7, Value.int 9]
        = Except.ok (s, ps) ∧
      ps.length = (firstOccurrences ((paramNamesOf
        (tokenizeNumeric ("x = :2 AND y = :1 OR z = :2").data)).map
          (NumericToNumericConverter.inIndexOf 1))).length) :=
  ⟨(numericOut_dedups_repeated_refs "${param}" 1 "WHERE id = :id OR alt = :id").1
      [("id", Value.int 5)] (by decide) (by decide),
   (numericOut_dedups_repeated_refs "${param}" 1 "x = :2 AND y = :1 OR z = :2").2
      1 [Value.int 7, Value.int 9] (by decide) (by decide)⟩

end SqlParams
